import Mathlib

/-!
Shallow embedding of the `maintenances` repository (files
`custom_napalm/junos.py`, `lib/getters.py`, `utils/logins.py`) and proofs of
the frozen claims about it.

Python dictionaries are modelled as association lists `List (String × α)`
with first-occurrence lookup and in-place replacement, matching CPython
semantics (unique keys, insertion order, `update` overwrites in place and
appends new keys).  Python values flowing through the normalization code are
modelled by the `Value` type; Python exceptions by `PyErr` via `Except`.
External collaborators (the RPC transport, `netaddr`, DNS) are parameters of
the embedded functions: an RPC call that raises the remote-procedure error
type is modelled by the parameter returning `Option.none`.
-/

set_option autoImplicit false

namespace Maint

/-- A Python runtime value as used by the normalization code. -/
inductive Value where
  | none
  | bool (b : Bool)
  | int (n : Int)
  | str (s : String)
  | list (l : List Value)
  | dict (d : List (String × Value))
deriving Repr, Inhabited

/-- Python truthiness (`bool(v)`) for the shapes that occur in this code. -/
def truthy : Value → Bool
  | .none => false
  | .bool b => b
  | .int n => n != 0
  | .str s => !s.isEmpty
  | .list l => !l.isEmpty
  | .dict d => !d.isEmpty

/-- Truthiness of a `dict.get` result (`None` for an absent key is falsy). -/
def truthyO : Option Value → Bool
  | Option.none => false
  | some v => truthy v

/-- `d.get(k)`: `None` when the key is absent. -/
def optV : Option Value → Value
  | Option.none => Value.none
  | some v => v

/-- Python exceptions raised by the embedded code. -/
inductive PyErr where
  | typeError
  | keyError
  | valueError
  | attributeError
  | indexError
  | addrFormatError
  | unboundLocalError
deriving Repr, DecidableEq

/-! ### Association-list dictionaries -/

/-- First-occurrence lookup, `d[k]` / `d.get(k)`. -/
def aget {α : Type} (d : List (String × α)) (k : String) : Option α :=
  match d with
  | [] => Option.none
  | (k', v) :: t => if k' = k then some v else aget t k

/-- `d[k] = v`: replace the value at the first occurrence of `k`, else append. -/
def aset {α : Type} (d : List (String × α)) (k : String) (v : α) :
    List (String × α) :=
  match d with
  | [] => [(k, v)]
  | (k', v') :: t => if k' = k then (k', v) :: t else (k', v') :: aset t k v

/-- `d.pop(k)` with no default: the removed value and the remaining dict. -/
def apop {α : Type} (d : List (String × α)) (k : String) :
    Option (α × List (String × α)) :=
  match d with
  | [] => Option.none
  | (k', v) :: t =>
    if k' = k then some (v, t)
    else match apop t k with
      | some (w, t') => some (w, (k', v) :: t')
      | Option.none => Option.none

/-- `list(d.keys())`. -/
def akeys {α : Type} (d : List (String × α)) : List String :=
  d.map Prod.fst

/-- `d.update(src)`: keys of `src` written into `d` in order. -/
def aupdate {α : Type} (d src : List (String × α)) : List (String × α) :=
  src.foldl (fun a kv => aset a kv.1 kv.2) d

@[simp] theorem aget_nil {α : Type} (k : String) :
    aget ([] : List (String × α)) k = Option.none := rfl

@[simp] theorem aget_cons {α : Type} (k' k : String) (v : α)
    (t : List (String × α)) :
    aget ((k', v) :: t) k = if k' = k then some v else aget t k := rfl

@[simp] theorem aset_nil {α : Type} (k : String) (v : α) :
    aset ([] : List (String × α)) k v = [(k, v)] := rfl

@[simp] theorem aset_cons {α : Type} (k' k : String) (v' v : α)
    (t : List (String × α)) :
    aset ((k', v') :: t) k v =
      if k' = k then (k', v) :: t else (k', v') :: aset t k v := rfl

@[simp] theorem akeys_nil {α : Type} : akeys ([] : List (String × α)) = [] :=
  rfl

@[simp] theorem akeys_cons {α : Type} (k : String) (v : α)
    (t : List (String × α)) : akeys ((k, v) :: t) = k :: akeys t := rfl

theorem aget_aset_self {α : Type} (d : List (String × α)) (k : String) (v : α) :
    aget (aset d k v) k = some v := by
  induction d with
  | nil => simp
  | cons h t ih =>
    obtain ⟨k', v'⟩ := h
    by_cases hk : k' = k <;> simp [hk, ih]

theorem aget_aset_ne {α : Type} (d : List (String × α)) (k k' : String) (v : α)
    (h : k ≠ k') : aget (aset d k v) k' = aget d k' := by
  induction d with
  | nil => simp [h]
  | cons hd t ih =>
    obtain ⟨k'', v''⟩ := hd
    by_cases hk : k'' = k
    · subst hk
      simp [h]
    · by_cases hk' : k'' = k'
      · subst hk'
        simp [hk]
      · simp [hk, hk', ih]

theorem akeys_aset_of_mem {α : Type} (d : List (String × α)) (k : String)
    (v : α) (h : k ∈ akeys d) : akeys (aset d k v) = akeys d := by
  induction d with
  | nil => simp at h
  | cons hd t ih =>
    obtain ⟨k', v'⟩ := hd
    by_cases hk : k' = k
    · simp [hk]
    · simp [hk] at h ⊢
      rcases h with h | h
      · exact absurd h.symm hk
      · exact ih h

theorem mem_akeys_of_aget {α : Type} (d : List (String × α)) (k : String)
    (v : α) (h : aget d k = some v) : k ∈ akeys d := by
  induction d with
  | nil => simp [aget] at h
  | cons hd t ih =>
    obtain ⟨k', v'⟩ := hd
    by_cases hk : k' = k
    · simp [hk]
    · simp [aget, hk] at h
      simp
      exact Or.inr (ih h)

theorem aget_none_of_not_mem_akeys {α : Type} (d : List (String × α))
    (k : String) (h : k ∉ akeys d) : aget d k = Option.none := by
  induction d with
  | nil => rfl
  | cons hd t ih =>
    obtain ⟨k', v'⟩ := hd
    simp at h
    push_neg at h
    have h1 : k' ≠ k := fun hh => h.1 hh.symm
    simp [aget, h1, ih h.2]

theorem akeys_mem_aset {α : Type} (d : List (String × α)) (k k' : String)
    (v : α) (h : k' ∈ akeys (aset d k v)) : k' ∈ akeys d ∨ k' = k := by
  induction d with
  | nil =>
    simp at h
    exact Or.inr h
  | cons hd t ih =>
    obtain ⟨k'', v''⟩ := hd
    by_cases hk : k'' = k
    · simp [hk] at h ⊢
      tauto
    · simp [hk] at h ⊢
      rcases h with h | h
      · exact Or.inl (Or.inl h)
      · rcases ih h with h' | h'
        · exact Or.inl (Or.inr h')
        · exact Or.inr h'

theorem akeys_mem_aupdate {α : Type} (d src : List (String × α)) (k : String)
    (h : k ∈ akeys (aupdate d src)) : k ∈ akeys d ∨ k ∈ akeys src := by
  induction src generalizing d with
  | nil => exact Or.inl (by simpa [aupdate] using h)
  | cons hd t ih =>
    obtain ⟨k', v'⟩ := hd
    have h' : k ∈ akeys (aupdate (aset d k' v') t) := by
      simpa [aupdate] using h
    rcases ih _ h' with h'' | h''
    · rcases akeys_mem_aset d k' k v' h'' with h3 | h3
      · exact Or.inl h3
      · exact Or.inr (by simp [h3])
    · exact Or.inr (by simp; exact Or.inr h'')

/-! ### Python string operations

Modelled at the character-list level so that every function is structurally
recursive (and hence evaluable inside kernel proofs).  `replFuel` and
`splitFuel` use a fuel argument; fuel `length + 1` is always sufficient since
the patterns used by this code are non-empty. -/

/-- Strip `pat` from the front of `s`, if it is a prefix. -/
def stripPre : List Char → List Char → Option (List Char)
  | [], s => some s
  | _, [] => Option.none
  | p :: ps, c :: cs => if p = c then stripPre ps cs else Option.none

/-- `str.replace`: replace non-overlapping occurrences of `pat` left to
right.  Faithful to Python for non-empty `pat`. -/
def replFuel (rep pat : List Char) : Nat → List Char → List Char
  | 0, s => s
  | _, [] => []
  | fuel + 1, c :: cs =>
    match stripPre pat (c :: cs) with
    | some rest => rep ++ replFuel rep pat fuel rest
    | Option.none => c :: replFuel rep pat fuel cs

/-- `s.replace(pat, rep)`. -/
def pyReplace (s pat rep : String) : String :=
  ⟨replFuel rep.toList pat.toList (s.toList.length + 1) s.toList⟩

/-- `str.split(sep)` on character lists; fuel as in `replFuel`. -/
def splitFuel (sep : List Char) : Nat → List Char → List (List Char)
  | 0, s => [s]
  | _, [] => [[]]
  | fuel + 1, c :: cs =>
    match stripPre sep (c :: cs) with
    | some rest => [] :: splitFuel sep fuel rest
    | Option.none =>
      match splitFuel sep fuel cs with
      | [] => [[c]]
      | h :: t => (c :: h) :: t

/-- `s.split(sep)`.  Faithful to Python for non-empty separators. -/
def pySplitOn (s sep : String) : List String :=
  (splitFuel sep.toList (s.toList.length + 1) s.toList).map (fun l => ⟨l⟩)

/-- `s.split(sep)[0]` (a split result is never empty). -/
def pySplitHead (s sep : String) : String :=
  (pySplitOn s sep).headD ""

/-- Python whitespace for `str.strip()`. -/
def isPySpace (c : Char) : Bool :=
  c = ' ' || c = '\t' || c = '\n' || c = '\r' || c = '\x0b' || c = '\x0c'

/-- `s.strip()`: drop whitespace from both ends. -/
def pyStrip (s : String) : String :=
  ⟨((s.toList.dropWhile isPySpace).reverse.dropWhile isPySpace).reverse⟩

/-- `str(v)` / f-string interpolation, for the value shapes this code
actually formats (ints and strings; the remaining cases are placeholders
never exercised by the repository's data). -/
def pyStr : Value → String
  | .none => "None"
  | .bool b => if b then "True" else "False"
  | .int n => toString n
  | .str s => s
  | .list _ => "<list repr>"
  | .dict _ => "<dict repr>"

end Maint

namespace Maint

/-! ### `custom_napalm/junos.py` — `CustomJunOSDriver`

RPC calls are modelled by `Option` parameters: `Option.none` stands for the
transport raising the remote-procedure error type (`RpcError`), `some items`
for a successful call returning the table's `.items()` list. -/

/-- `rpc_get`: return the RPC result, or an empty result after logging when
the call raised `RpcError` (`junos.py` lines 15–22). -/
def rpc_get {α : Type} (rpc_result : Option α) (empty : α) : α :=
  match rpc_result with
  | some v => v
  | Option.none => empty

/-- The `as_path` trimming chain of `_bgp_routes_format`
(`junos.py` lines 202–209):
`as_path.split(" I ")[0].replace("AS path:", "").replace("I", "")
.replace("\n Recorded", "").strip()`. -/
def as_path_trim (s : String) : String :=
  pyStrip (pyReplace (pyReplace (pyReplace (pySplitHead s " I ")
    "AS path:" "") "I" "") "\n Recorded" "")

/-- `as_path = route_dict.get("as_path"); if as_path is not None: …` —
`None` (absent key or a `None` value) is kept, a string is trimmed, anything
else would fail Python's `.split` attribute lookup. -/
def asPathValue : Option Value → Except PyErr Value
  | Option.none => .ok .none
  | some .none => .ok .none
  | some (.str s) => .ok (.str (as_path_trim s))
  | some _ => .error .attributeError

/-- `communities = route_dict.get("communities"); if communities is not None
and type(communities) is not list: communities = [communities]`. -/
def communitiesValue : Option Value → Value
  | Option.none => .none
  | some .none => .none
  | some (.list l) => .list l
  | some v => .list [v]

/-- Body of `_bgp_routes_format` after the `prefix_length` pop: the
`route_dict["next_hop"]` / `["local_preference"]` / `["metric"]` direct
indexings raise `KeyError` when absent. -/
def bgp_routes_format_rest (rd : List (String × Value)) (destination : String) :
    Except PyErr (List (String × Value)) :=
  match asPathValue (aget rd "as_path") with
  | .error e => .error e
  | .ok asp =>
    match aget rd "next_hop", aget rd "local_preference", aget rd "metric" with
    | some nh, some lp, some med =>
      .ok [(destination, Value.dict [("Next-Hop", nh), ("Local Preference", lp),
        ("AS-Path", asp), ("MED", med),
        ("Communities", communitiesValue (aget rd "communities"))])]
    | _, _, _ => .error .keyError

/-- `_bgp_routes_format(route_dict, destination)` (`junos.py` lines
196–223): `prefix_length = route_dict.pop("prefix_length", 32)`, then
`destination = f"{destination}/{prefix_length}"`, then the field shaping. -/
def bgp_routes_format (route_dict : List (String × Value))
    (destination : String) : Except PyErr (List (String × Value)) :=
  match apop route_dict "prefix_length" with
  | some (v, rd) => bgp_routes_format_rest rd (destination ++ "/" ++ pyStr v)
  | Option.none =>
    bgp_routes_format_rest route_dict
      (destination ++ "/" ++ pyStr (Value.int 32))

theorem apop_eq_none_of_aget_none {α : Type} (d : List (String × α))
    (k : String) (h : aget d k = Option.none) : apop d k = Option.none := by
  induction d with
  | nil => rfl
  | cons hd t ih =>
    obtain ⟨k', v'⟩ := hd
    by_cases hk : k' = k
    · simp [aget, hk] at h
    · simp [aget, hk] at h
      simp [apop, hk, ih h]

theorem aget_apop_ne {α : Type} (d : List (String × α)) (k k' : String)
    (w : α) (d' : List (String × α)) (hp : apop d k = some (w, d'))
    (h : k' ≠ k) : aget d' k' = aget d k' := by
  induction d generalizing w d' with
  | nil => simp [apop] at hp
  | cons hd t ih =>
    obtain ⟨k'', v''⟩ := hd
    by_cases hk : k'' = k
    · subst hk
      simp [apop] at hp
      obtain ⟨hw, hd'⟩ := hp
      subst hd'
      have hne : k'' ≠ k' := fun hh => h hh.symm
      simp [aget, hne]
    · simp [apop, hk] at hp
      cases hpt : apop t k with
      | none => rw [hpt] at hp; simp at hp
      | some p =>
        obtain ⟨w2, t'⟩ := p
        rw [hpt] at hp
        simp at hp
        obtain ⟨hw, hd'⟩ := hp
        subst hd'
        by_cases hk' : k'' = k'
        · simp [aget, hk']
        · simp [aget, hk', ih w2 t' hpt]

theorem bgp_routes_format_rest_ok (rd : List (String × Value)) (dest : String)
    (out : List (String × Value))
    (h : bgp_routes_format_rest rd dest = .ok out) :
    ∃ asp nh lp med, out = [(dest, Value.dict [("Next-Hop", nh),
      ("Local Preference", lp), ("AS-Path", asp), ("MED", med),
      ("Communities", communitiesValue (aget rd "communities"))])] := by
  unfold bgp_routes_format_rest at h
  split at h
  · exact absurd h (by simp)
  · split at h
    · injection h with h'
      exact ⟨_, _, _, _, h'.symm⟩
    · exact absurd h (by simp)

/-- **C6.** For every raw route tuple processed by `_bgp_routes_format`:
when no explicit `prefix_length` is present the emitted destination string
ends in `/32`; a non-list, non-`None` `communities` value is wrapped into a
singleton list; and the AS-path string `"AS path: 65000 I Recorded"`
normalizes to the bare AS sequence `"65000"`. -/
theorem routes_format_normalization (rd : List (String × Value))
    (dest : String) (out : List (String × Value))
    (hok : bgp_routes_format rd dest = .ok out) :
    (aget rd "prefix_length" = Option.none → akeys out = [dest ++ "/32"]) ∧
    (∀ v, aget rd "communities" = some v → v ≠ Value.none →
      (∀ l, v ≠ Value.list l) →
      ∃ k fields, out = [(k, Value.dict fields)] ∧
        aget fields "Communities" = some (Value.list [v])) ∧
    as_path_trim "AS path: 65000 I Recorded" = "65000" := by
  refine ⟨?_, ?_, by rfl⟩
  · intro hpl
    have hpop := apop_eq_none_of_aget_none rd "prefix_length" hpl
    unfold bgp_routes_format at hok
    rw [hpop] at hok
    obtain ⟨asp, nh, lp, med, ho⟩ := bgp_routes_format_rest_ok _ _ _ hok
    subst ho
    simp [akeys]
    rw [String.append_assoc]
    rfl
  · intro v hv hvn hvl
    have hcv : communitiesValue (some v) = Value.list [v] := by
      cases v with
      | none => exact absurd rfl hvn
      | list l => exact absurd rfl (hvl l)
      | bool b => rfl
      | int n => rfl
      | str s => rfl
      | dict d => rfl
    unfold bgp_routes_format at hok
    cases hpop : apop rd "prefix_length" with
    | none =>
      rw [hpop] at hok
      obtain ⟨asp, nh, lp, med, ho⟩ := bgp_routes_format_rest_ok _ _ _ hok
      refine ⟨_, _, ho, ?_⟩
      simp [aget, hv, hcv]
    | some p =>
      obtain ⟨pv, rd'⟩ := p
      rw [hpop] at hok
      obtain ⟨asp, nh, lp, med, ho⟩ := bgp_routes_format_rest_ok _ _ _ hok
      have hcomm : aget rd' "communities" = some v := by
        rw [aget_apop_ne rd "prefix_length" "communities" pv rd' hpop
          (by decide)]
        exact hv
      refine ⟨_, _, ho, ?_⟩
      simp [aget, hcomm, hcv]

/-- A concrete raw route tuple for the C6 witness: no `prefix_length`, a
single string community, the documented AS-path example. -/
def c6routeDict : List (String × Value) :=
  [("as_path", Value.str "AS path: 65000 I Recorded"),
   ("next_hop", Value.str "10.0.0.2"),
   ("local_preference", Value.int 100),
   ("metric", Value.int 0),
   ("communities", Value.str "65000:100")]

/-- The record `_bgp_routes_format` emits for `c6routeDict`. -/
def c6routeOut : List (String × Value) :=
  [("192.0.2.1/32", Value.dict [("Next-Hop", Value.str "10.0.0.2"),
    ("Local Preference", Value.int 100),
    ("AS-Path", Value.str "65000"), ("MED", Value.int 0),
    ("Communities", Value.list [Value.str "65000:100"])])]

/-- Witness for C6 at a concrete route tuple. -/
theorem routes_format_normalization_witness :
    bgp_routes_format c6routeDict "192.0.2.1" = .ok c6routeOut ∧
    akeys c6routeOut = ["192.0.2.1" ++ "/32"] :=
  ⟨rfl, (routes_format_normalization c6routeDict "192.0.2.1" c6routeOut
    rfl).1 rfl⟩

/-! ### `get_route_to` (`junos.py` lines 249–276)

The loop keeps the Python local state explicit: `routes` (the accumulator),
`viewOk` (whether `routes_table` is still the RPC view object — the
`except RpcError` handler rebinds it to a plain `{}` dict, on which the next
iteration's `routes_table.get(route, table=…)` raises `TypeError`),
`route_output` (`Option.none` models the local being unbound, so that
referencing it raises `UnboundLocalError`), and `calls`, the number of RPC
calls issued.  `ipVersion` models `netaddr.IPNetwork(route).version`
(`Option.none` = `AddrFormatError`); `rpc dest table` models
`routes_table.get(dest, table=table).items()` with `Option.none` standing
for a raised `RpcError`. -/
def get_route_to_loop (ipVersion : String → Option Nat)
    (rpc : String → String → Option (List (String × List (String × Value)))) :
    List Value → List (String × Value) → Bool →
    Option (List (String × List (String × Value))) → Nat →
    Except PyErr (List (String × Value)) × Nat
  | [], routes, _, _, calls => (.ok routes, calls)
  | route :: rest, routes, viewOk, route_output, calls =>
    match route with
    | .str s =>
      match ipVersion s with
      | Option.none => (.error .addrFormatError, calls)
      | some ver =>
        let table := "inet" ++ (if ver == 4 then "" else "6") ++ ".0"
        if viewOk then
          -- try: route_output = routes_table.get(...).items()
          -- except RpcError: log(...); routes_table = {}
          let st2 : Bool × Option (List (String × List (String × Value))) :=
            match rpc s table with
            | some items => (true, some items)
            | Option.none => (false, route_output)
          match st2.2 with
          | Option.none => (.error .unboundLocalError, calls + 1)
          | some items =>
            match items with
            | [] => (.error .indexError, calls + 1)
            | (_, elems) :: _ =>
              let route_dict := elems.foldl (fun d e => aset d e.1 e.2) []
              let pr : String × List (String × Value) :=
                match apop route_dict "destination" with
                | some (dv, d') => (pyStr dv, d')
                | Option.none => (pyStr (Value.str ""), route_dict)
              match bgp_routes_format pr.2 pr.1 with
              | .error e => (.error e, calls + 1)
              | .ok recs =>
                get_route_to_loop ipVersion rpc rest (aupdate routes recs)
                  st2.1 st2.2 (calls + 1)
        else
          -- routes_table is now a plain dict: dict.get() takes no
          -- keyword arguments, so this raises TypeError without an RPC call
          (.error .typeError, calls)
    | _ => (.error .addrFormatError, calls)

/-- `get_route_to(routes_list)`: the `isinstance(routes_list, list)` guard
runs before the view is built and before any RPC is issued. -/
def get_route_to (ipVersion : String → Option Nat)
    (rpc : String → String → Option (List (String × List (String × Value))))
    (routes_list : Value) : Except PyErr (List (String × Value)) × Nat :=
  match routes_list with
  | .list l => get_route_to_loop ipVersion rpc l [] true Option.none 0
  | _ => (.error .typeError, 0)

/-- **C5.** For every non-list argument passed as the destinations parameter
of `get_route_to`, the getter fails with a `TypeError` and issues no RPC
call. -/
theorem route_to_type_error (ipVersion : String → Option Nat)
    (rpc : String → String → Option (List (String × List (String × Value))))
    (v : Value) (h : ∀ l, v ≠ Value.list l) :
    get_route_to ipVersion rpc v = (.error .typeError, 0) := by
  cases v with
  | list l => exact absurd rfl (h l)
  | none => rfl
  | bool b => rfl
  | int n => rfl
  | str s => rfl
  | dict d => rfl

/-- An IP-version oracle for concrete runs: everything is IPv4. -/
def allV4 : String → Option Nat := fun _ => some 4

/-- An RPC transport whose every call raises the remote-procedure error. -/
def rpcAlwaysFails :
    String → String → Option (List (String × List (String × Value))) :=
  fun _ _ => Option.none

/-- Witness for C5: a plain string (and a dict) argument. -/
theorem route_to_type_error_witness :
    (∀ l, Value.str "10.0.0.1" ≠ Value.list l) ∧
    get_route_to allV4 rpcAlwaysFails (Value.str "10.0.0.1") =
      (.error .typeError, 0) ∧
    get_route_to allV4 rpcAlwaysFails (Value.dict []) =
      (.error .typeError, 0) :=
  ⟨fun _ h => Value.noConfusion h,
   route_to_type_error allV4 rpcAlwaysFails (Value.str "10.0.0.1")
     (fun _ h => Value.noConfusion h),
   route_to_type_error allV4 rpcAlwaysFails (Value.dict [])
     (fun _ h => Value.noConfusion h)⟩

/-- **C1 (refuted by the code).** The spec says every getter converts a
remote-procedure failure into an empty result, including `get_route_to`.
In `get_route_to`, however, the `except RpcError` branch only rebinds
`routes_table = {}` and falls through: the following line then references
`route_output`, which was never assigned, so the call raises
`UnboundLocalError` instead of logging and returning `{}` — evaluated here
on a one-destination list whose RPC call fails. -/
theorem route_to_rpc_error_unbound :
    get_route_to allV4 rpcAlwaysFails (Value.list [Value.str "10.0.0.1"]) =
      (.error .unboundLocalError, 1) := rfl

/-! ### `get_arp_table_custom` / `get_nd_table_custom`
(`junos.py` lines 87–143)

A table row `neighbor` is the pair of its key `neighbor[0]` and the
positional fields `neighbor[1][0][1]` (next-hop) and `neighbor[1][1][1]`
(raw MAC), named here per the view's fixed field order.  `euiParse` models
`netaddr.EUI`: `Option.none` stands for a raised `AddrFormatError`. -/
structure ArpEntry where
  intf : String
  nh : Value
  macRaw : Value

/-- A row of the IPv6 ND table view, same positional layout. -/
structure NdEntry where
  intf : String
  nh : Value
  macRaw : Value

/-- `try: mac = str(netaddr.EUI(raw)).replace("-", ":")
except netaddr.core.AddrFormatError: mac = None`. -/
def arpMac (euiParse : Value → Option String) (raw : Value) : Value :=
  match euiParse raw with
  | some m => Value.str (pyReplace m "-" ":")
  | Option.none => Value.none

/-- `get_arp_table_custom` (`junos.py` lines 87–114). -/
def get_arp_table_custom (euiParse : Value → Option String)
    (rpcResult : Option (List ArpEntry)) : List (String × Value) :=
  (rpc_get rpcResult []).foldl (fun arp n =>
    aset arp n.intf (Value.dict [("arp_nh_mac", arpMac euiParse n.macRaw),
      ("arp_nh", n.nh)])) []

/-- `get_nd_table_custom` (`junos.py` lines 116–143); note the swapped field
order in the emitted record. -/
def get_nd_table_custom (euiParse : Value → Option String)
    (rpcResult : Option (List NdEntry)) : List (String × Value) :=
  (rpc_get rpcResult []).foldl (fun nd n =>
    aset nd n.intf (Value.dict [("nd_nh", n.nh),
      ("nd_nh_mac", arpMac euiParse n.macRaw)])) []

theorem aget_foldl_aset_not_mem {α β : Type} (f : β → String) (g : β → α)
    (l : List β) (acc : List (String × α)) (k : String) (hk : k ∉ l.map f) :
    aget (l.foldl (fun d e => aset d (f e) (g e)) acc) k = aget acc k := by
  induction l generalizing acc with
  | nil => rfl
  | cons e t ih =>
    rw [List.map_cons] at hk
    have h1 : k ≠ f e := fun hh => hk (hh ▸ List.mem_cons_self _ _)
    have h2 : k ∉ t.map f := fun hh => hk (List.mem_cons_of_mem _ hh)
    rw [List.foldl_cons, ih _ h2,
      aget_aset_ne _ _ _ _ (fun hh => h1 hh.symm)]

theorem aget_foldl_aset_mem {α β : Type} (f : β → String) (g : β → α)
    (l : List β) (acc : List (String × α)) (n : β) (hn : n ∈ l)
    (hnd : (l.map f).Nodup) :
    aget (l.foldl (fun d e => aset d (f e) (g e)) acc) (f n) = some (g n) := by
  induction l generalizing acc with
  | nil => cases hn
  | cons e t ih =>
    rw [List.map_cons, List.nodup_cons] at hnd
    rcases List.mem_cons.mp hn with rfl | hn'
    · rw [List.foldl_cons, aget_foldl_aset_not_mem f g t _ (f n) hnd.1]
      exact aget_aset_self _ _ _
    · rw [List.foldl_cons]
      exact ih _ hn' hnd.2

/-- **C7.** For every ARP or IPv6-ND table entry whose MAC source is
malformed (the `netaddr.EUI` parse raises), the getters do not raise: the
record emitted for that entry carries a null MAC field and the next-hop
field copied from the source row.  (Interface keys of an RPC table are
unique, hence the `Nodup` hypotheses.) -/
theorem arp_nd_malformed_mac (euiParse : Value → Option String)
    (arpEntries : List ArpEntry) (ndEntries : List NdEntry)
    (hndA : (arpEntries.map ArpEntry.intf).Nodup)
    (hndN : (ndEntries.map NdEntry.intf).Nodup) :
    (∀ n ∈ arpEntries, euiParse n.macRaw = Option.none →
      aget (get_arp_table_custom euiParse (some arpEntries)) n.intf =
        some (Value.dict [("arp_nh_mac", Value.none), ("arp_nh", n.nh)])) ∧
    (∀ n ∈ ndEntries, euiParse n.macRaw = Option.none →
      aget (get_nd_table_custom euiParse (some ndEntries)) n.intf =
        some (Value.dict [("nd_nh", n.nh), ("nd_nh_mac", Value.none)])) := by
  constructor
  · intro n hn hbad
    have := aget_foldl_aset_mem ArpEntry.intf
      (fun e => Value.dict [("arp_nh_mac", arpMac euiParse e.macRaw),
        ("arp_nh", e.nh)]) arpEntries [] n hn hndA
    simpa [get_arp_table_custom, rpc_get, arpMac, hbad] using this
  · intro n hn hbad
    have := aget_foldl_aset_mem NdEntry.intf
      (fun e => Value.dict [("nd_nh", e.nh),
        ("nd_nh_mac", arpMac euiParse e.macRaw)]) ndEntries [] n hn hndN
    simpa [get_nd_table_custom, rpc_get, arpMac, hbad] using this

/-- A MAC parser that rejects every input, for the C7 witness. -/
def euiParseNever : Value → Option String := fun _ => Option.none

/-- Concrete malformed-MAC ARP row for the C7 witness. -/
def c7arpEntry : ArpEntry :=
  ⟨"et-0/0/0.0", Value.str "10.0.0.2", Value.str "not a mac"⟩

/-- Concrete malformed-MAC ND row for the C7 witness. -/
def c7ndEntry : NdEntry :=
  ⟨"et-0/0/0.0", Value.str "fe80::1", Value.str "not a mac"⟩

/-- Witness for C7 at a one-row ARP table and a one-row ND table. -/
theorem arp_nd_malformed_mac_witness :
    aget (get_arp_table_custom euiParseNever (some [c7arpEntry]))
        "et-0/0/0.0" =
      some (Value.dict [("arp_nh_mac", Value.none),
        ("arp_nh", Value.str "10.0.0.2")]) ∧
    aget (get_nd_table_custom euiParseNever (some [c7ndEntry]))
        "et-0/0/0.0" =
      some (Value.dict [("nd_nh", Value.str "fe80::1"),
        ("nd_nh_mac", Value.none)]) :=
  ⟨(arp_nd_malformed_mac euiParseNever [c7arpEntry] [c7ndEntry]
      (by simp) (by simp)).1 c7arpEntry (by simp) rfl,
   (arp_nd_malformed_mac euiParseNever [c7arpEntry] [c7ndEntry]
      (by simp) (by simp)).2 c7ndEntry (by simp) rfl⟩

/-! ### `get_isis_interfaces_custom` (`junos.py` lines 24–59) -/

/-- A row of the ISIS adjacency table view: key `neighbor[0][0]` and the
positional fields `neighbor[1][0][1]` (system id), `neighbor[1][1][1]`
(state), `neighbor[1][2][1]` (ipv6 flag), `neighbor[1][3][1]` (next-hop). -/
structure IsisAdjEntry where
  intf : String
  neighborId : Value
  state : Value
  ipv6 : Value
  nh : Value

/-- A row of the ISIS interface table view: key `interface[0][0]` and the
positional metric field `interface[1][0][1]`. -/
structure IsisIntfEntry where
  intf : String
  metric : Value

/-- Decimal digit run to `Nat` (`Option.none` on any non-digit). -/
def decNatAux : List Char → Nat → Option Nat
  | [], acc => some acc
  | c :: cs, acc =>
    if c.isDigit then decNatAux cs (acc * 10 + (c.toNat - 48))
    else Option.none

/-- Non-empty decimal digit run to `Nat`. -/
def decNat : List Char → Option Nat
  | [] => Option.none
  | l => decNatAux l 0

/-- Python `int(x)` for the value shapes this code can receive: ints and
booleans pass through, a string is parsed as an optionally signed decimal
integer with surrounding whitespace allowed (`ValueError` otherwise), and
any other type raises `TypeError`. -/
def pyInt : Value → Except PyErr Int
  | .int n => .ok n
  | .bool b => .ok (if b then 1 else 0)
  | .str s =>
    match (pyStrip s).toList with
    | '-' :: rest =>
      match decNat rest with
      | some n => .ok (-(n : Int))
      | Option.none => .error .valueError
    | '+' :: rest =>
      match decNat rest with
      | some n => .ok (n : Int)
      | Option.none => .error .valueError
    | l =>
      match decNat l with
      | some n => .ok (n : Int)
      | Option.none => .error .valueError
  | _ => .error .typeError

/-- `int_dict`, the interface table collapsed to
`interface[0][0] ↦ interface[1][0][1]` (`junos.py` lines 41–43). -/
def isisIntDict (intfs : List IsisIntfEntry) : List (String × Value) :=
  intfs.foldl (fun d e => aset d e.intf e.metric) []

/-- The record built for one adjacency (`junos.py` lines 50–56). -/
def isisRecordVal (n : IsisAdjEntry) (metric : Int) : Value :=
  Value.dict [("isis_neighbor", n.neighborId), ("isis_state", n.state),
    ("isis_nh", n.nh), ("isis_ipv6", n.ipv6),
    ("isis_metric", Value.int metric)]

/-- Loop body for one adjacency: `int_dict[neighbor[0][0]]` is a direct
lookup (`KeyError` when the interface table has no such row), and the metric
goes through `int(...)`. -/
def isisStep (int_dict : List (String × Value))
    (isis : List (String × Value)) (n : IsisAdjEntry) :
    Except PyErr (List (String × Value)) :=
  match aget int_dict n.intf with
  | Option.none => .error .keyError
  | some mv =>
    match pyInt mv with
    | .error e => .error e
    | .ok m => .ok (aset isis n.intf (isisRecordVal n m))

/-- `get_isis_interfaces_custom` (`junos.py` lines 24–59). -/
def get_isis_interfaces_custom (adjRpc : Option (List IsisAdjEntry))
    (intfRpc : Option (List IsisIntfEntry)) :
    Except PyErr (List (String × Value)) :=
  (rpc_get adjRpc []).foldlM (isisStep (isisIntDict (rpc_get intfRpc []))) []

theorem except_bind_error {ε α β : Type} (e : ε) (f : α → Except ε β) :
    (Except.error e >>= f) = Except.error e := rfl

theorem except_bind_ok {ε α β : Type} (a : α) (f : α → Except ε β) :
    (Except.ok a >>= f) = f a := rfl

theorem mem_aset_cases {α : Type} (d : List (String × α)) (k k' : String)
    (v v' : α) (h : (k', v') ∈ aset d k v) :
    (k', v') ∈ d ∨ (k' = k ∧ v' = v) := by
  induction d with
  | nil =>
    simp [aset] at h
    exact Or.inr h
  | cons hd t ih =>
    obtain ⟨k'', v''⟩ := hd
    by_cases hk : k'' = k
    · simp [aset, hk] at h
      rcases h with h | h
      · exact Or.inr ⟨h.1, h.2⟩
      · exact Or.inl (List.mem_cons_of_mem _ h)
    · simp only [aset, hk, if_false, List.mem_cons] at h
      rcases h with h | h
      · exact Or.inl (by simp [h])
      · rcases ih h with h' | h'
        · exact Or.inl (List.mem_cons_of_mem _ h')
        · exact Or.inr h'

theorem isis_fold_keyerror (int_dict : List (String × Value))
    (adj : List IsisAdjEntry) (acc : List (String × Value))
    (hmiss : ∃ a ∈ adj, aget int_dict a.intf = Option.none)
    (hco : ∀ b ∈ adj, ∀ mv, aget int_dict b.intf = some mv →
      ∃ m, pyInt mv = .ok m) :
    adj.foldlM (isisStep int_dict) acc = .error .keyError := by
  induction adj generalizing acc with
  | nil => simp at hmiss
  | cons a t ih =>
    rw [List.foldlM_cons]
    cases hga : aget int_dict a.intf with
    | none =>
      simp only [isisStep, hga]
      rfl
    | some mv =>
      obtain ⟨m, hm⟩ := hco a (List.mem_cons_self _ _) mv hga
      simp only [isisStep, hga, hm, except_bind_ok]
      obtain ⟨b, hb, hbm⟩ := hmiss
      rcases List.mem_cons.mp hb with rfl | hb'
      · rw [hga] at hbm; cases hbm
      · exact ih _ ⟨b, hb', hbm⟩
          (fun b' hb'' mv' h' => hco b' (List.mem_cons_of_mem _ hb'') mv' h')

theorem isis_fold_no_ok (int_dict : List (String × Value))
    (adj : List IsisAdjEntry) (acc : List (String × Value))
    (hmiss : ∃ a ∈ adj, aget int_dict a.intf = Option.none)
    (out : List (String × Value)) :
    adj.foldlM (isisStep int_dict) acc ≠ .ok out := by
  induction adj generalizing acc with
  | nil => simp at hmiss
  | cons a t ih =>
    rw [List.foldlM_cons]
    cases hga : aget int_dict a.intf with
    | none =>
      simp only [isisStep, hga]
      intro h
      cases h
    | some mv =>
      obtain ⟨b, hb, hbm⟩ := hmiss
      have hb' : b ∈ t := by
        rcases List.mem_cons.mp hb with rfl | hb''
        · rw [hga] at hbm; cases hbm
        · exact hb''
      cases hm : pyInt mv with
      | error e =>
        simp only [isisStep, hga, hm]
        intro h
        cases h
      | ok m =>
        simp only [isisStep, hga, hm, except_bind_ok]
        exact ih _ ⟨b, hb', hbm⟩

theorem isis_fold_join (int_dict : List (String × Value))
    (adj : List IsisAdjEntry) (acc out : List (String × Value))
    (hok : adj.foldlM (isisStep int_dict) acc = .ok out) :
    ∀ k v, (k, v) ∈ out → (k, v) ∈ acc ∨
      ∃ a ∈ adj, a.intf = k ∧ ∃ mv m, aget int_dict k = some mv ∧
        pyInt mv = .ok m ∧ v = isisRecordVal a m := by
  induction adj generalizing acc with
  | nil =>
    intro k v hkv
    simp only [List.foldlM_nil] at hok
    injection hok with h
    exact Or.inl (h ▸ hkv)
  | cons a t ih =>
    intro k v hkv
    rw [List.foldlM_cons] at hok
    cases hga : aget int_dict a.intf with
    | none =>
      simp only [isisStep, hga, except_bind_error] at hok
      cases hok
    | some mv =>
      cases hm : pyInt mv with
      | error e =>
        simp only [isisStep, hga, hm, except_bind_error] at hok
        cases hok
      | ok m =>
        simp only [isisStep, hga, hm, except_bind_ok] at hok
        rcases ih _ hok k v hkv with h' | h'
        · rcases mem_aset_cases _ _ _ _ _ h' with h'' | h''
          · exact Or.inl h''
          · refine Or.inr ⟨a, List.mem_cons_self _ _, h''.1.symm, mv, m,
              ?_, hm, h''.2⟩
            rw [← h''.1] at hga
            exact hga
        · obtain ⟨a', ha', rest⟩ := h'
          exact Or.inr ⟨a', List.mem_cons_of_mem _ ha', rest⟩

/-- **C8.** `get_isis_interfaces_custom` joins the adjacency and interface
tables on interface name with the metric coerced by `int(...)`: every
record of a successful run carries the integer-coerced metric of the
matching interface row, and an adjacency whose interface name is absent
from the interface table makes the getter fail — with a `KeyError` when
everything else coerces — never skipping the entry or returning a partial
result. -/
theorem isis_join_missing_key (adj : List IsisAdjEntry)
    (intfs : List IsisIntfEntry) :
    ((∃ a ∈ adj, aget (isisIntDict intfs) a.intf = Option.none) →
      (∀ out, get_isis_interfaces_custom (some adj) (some intfs) ≠
        .ok out) ∧
      ((∀ b ∈ adj, ∀ mv, aget (isisIntDict intfs) b.intf = some mv →
          ∃ m, pyInt mv = .ok m) →
        get_isis_interfaces_custom (some adj) (some intfs) =
          .error .keyError)) ∧
    (∀ out, get_isis_interfaces_custom (some adj) (some intfs) = .ok out →
      ∀ k v, (k, v) ∈ out →
        ∃ a ∈ adj, a.intf = k ∧ ∃ mv m,
          aget (isisIntDict intfs) k = some mv ∧ pyInt mv = .ok m ∧
          v = isisRecordVal a m) := by
  constructor
  · intro hmiss
    exact ⟨fun out => isis_fold_no_ok _ adj [] hmiss out,
      fun hco => isis_fold_keyerror _ adj [] hmiss hco⟩
  · intro out hok k v hkv
    rcases isis_fold_join _ adj [] out hok k v hkv with h | h
    · cases h
    · exact h

/-- A one-row adjacency table for the C8 witness. -/
def c8adjEntry : IsisAdjEntry :=
  ⟨"ae1.0", Value.str "router2", Value.bool true, Value.bool true,
    Value.str "10.0.0.2"⟩

/-- Witness for C8: the adjacency's interface is absent from an empty
interface table, so the getter raises `KeyError`; and with a matching
interface row carrying a string metric, the output record exists and joins
with the metric coerced to an integer. -/
theorem isis_join_missing_key_witness :
    get_isis_interfaces_custom (some [c8adjEntry]) (some []) =
      .error .keyError ∧
    (∀ k v, (k, v) ∈ [("ae1.0", isisRecordVal c8adjEntry 10)] →
      ∃ a ∈ [c8adjEntry], a.intf = k ∧ ∃ mv m,
        aget (isisIntDict [⟨"ae1.0", Value.str "10"⟩]) k = some mv ∧
        pyInt mv = .ok m ∧ v = isisRecordVal a m) :=
  ⟨((isis_join_missing_key [c8adjEntry] []).1
      ⟨c8adjEntry, List.mem_cons_self _ _, rfl⟩).2
      (fun b hb mv h => by
        rw [show aget (isisIntDict []) b.intf = Option.none from rfl] at h
        cases h),
   (isis_join_missing_key [c8adjEntry] [⟨"ae1.0", Value.str "10"⟩]).2
     [("ae1.0", isisRecordVal c8adjEntry 10)] rfl⟩

/-! ### Further association-list lemmas -/

@[simp] theorem aupdate_nil {α : Type} (d : List (String × α)) :
    aupdate d [] = d := rfl

@[simp] theorem aupdate_cons {α : Type} (d : List (String × α)) (k : String)
    (v : α) (t : List (String × α)) :
    aupdate d ((k, v) :: t) = aupdate (aset d k v) t := rfl

theorem apop_aget {α : Type} (d : List (String × α)) (k : String) (w : α)
    (d' : List (String × α)) (hp : apop d k = some (w, d')) :
    aget d k = some w := by
  induction d generalizing w d' with
  | nil => simp [apop] at hp
  | cons hd t ih =>
    obtain ⟨k', v'⟩ := hd
    by_cases hk : k' = k
    · simp [apop, hk] at hp
      simp [aget, hk, hp.1]
    · simp only [apop, hk, if_false] at hp
      cases hpt : apop t k with
      | none => rw [hpt] at hp; cases hp
      | some p =>
        obtain ⟨w2, t'⟩ := p
        rw [hpt] at hp
        simp at hp
        simp [aget, hk]
        exact (hp.1 ▸ ih w2 t' hpt)

theorem apop_akeys_sublist {α : Type} (d : List (String × α)) (k : String)
    (w : α) (d' : List (String × α)) (hp : apop d k = some (w, d')) :
    (akeys d').Sublist (akeys d) := by
  induction d generalizing w d' with
  | nil => simp [apop] at hp
  | cons hd t ih =>
    obtain ⟨k', v'⟩ := hd
    by_cases hk : k' = k
    · simp [apop, hk] at hp
      rw [hp.2]
      exact (List.sublist_cons_self _ _)
    · simp only [apop, hk, if_false] at hp
      cases hpt : apop t k with
      | none => rw [hpt] at hp; cases hp
      | some p =>
        obtain ⟨w2, t'⟩ := p
        rw [hpt] at hp
        simp at hp
        rw [← hp.2, akeys_cons]
        exact List.Sublist.cons₂ _ (ih w2 t' hpt)

theorem apop_not_mem_of_nodup {α : Type} (d : List (String × α)) (k : String)
    (w : α) (d' : List (String × α)) (hnd : (akeys d).Nodup)
    (hp : apop d k = some (w, d')) : k ∉ akeys d' := by
  induction d generalizing w d' with
  | nil => simp [apop] at hp
  | cons hd t ih =>
    obtain ⟨k', v'⟩ := hd
    rw [akeys_cons, List.nodup_cons] at hnd
    by_cases hk : k' = k
    · simp [apop, hk] at hp
      rw [hp.2] at hnd
      exact hk ▸ hnd.1
    · simp only [apop, hk, if_false] at hp
      cases hpt : apop t k with
      | none => rw [hpt] at hp; cases hp
      | some p =>
        obtain ⟨w2, t'⟩ := p
        rw [hpt] at hp
        simp at hp
        rw [← hp.2, akeys_cons]
        intro hmem
        rcases List.mem_cons.mp hmem with h | h
        · exact hk h.symm
        · exact ih w2 t' hnd.2 hpt h

theorem akeys_aset_not_mem {α : Type} (d : List (String × α)) (k : String)
    (v : α) (h : k ∉ akeys d) : akeys (aset d k v) = akeys d ++ [k] := by
  induction d with
  | nil => simp
  | cons hd t ih =>
    obtain ⟨k', v'⟩ := hd
    rw [akeys_cons] at h
    have h1 : k' ≠ k := fun hh => h (hh ▸ List.mem_cons_self _ _)
    have h2 : k ∉ akeys t := fun hh => h (List.mem_cons_of_mem _ hh)
    simp [aset, h1, ih h2]

theorem nodup_akeys_aset {α : Type} (d : List (String × α)) (k : String)
    (v : α) (hnd : (akeys d).Nodup) : (akeys (aset d k v)).Nodup := by
  by_cases h : k ∈ akeys d
  · rw [akeys_aset_of_mem d k v h]
    exact hnd
  · rw [akeys_aset_not_mem d k v h]
    simp [List.nodup_append, hnd, h]

theorem nodup_akeys_aupdate {α : Type} (d src : List (String × α))
    (hnd : (akeys d).Nodup) : (akeys (aupdate d src)).Nodup := by
  induction src generalizing d with
  | nil => exact hnd
  | cons e t ih =>
    obtain ⟨k', v'⟩ := e
    rw [aupdate_cons]
    exact ih _ (nodup_akeys_aset d k' v' hnd)

theorem aget_some_of_mem_akeys {α : Type} (d : List (String × α)) (k : String)
    (h : k ∈ akeys d) : ∃ v, aget d k = some v := by
  induction d with
  | nil => simp at h
  | cons hd t ih =>
    obtain ⟨k', v'⟩ := hd
    by_cases hk : k' = k
    · exact ⟨v', by simp [aget, hk]⟩
    · rw [akeys_cons] at h
      rcases List.mem_cons.mp h with h' | h'
      · exact absurd h'.symm hk
      · obtain ⟨v, hv⟩ := ih h'
        exact ⟨v, by simp [aget, hk, hv]⟩

theorem mem_akeys_aupdate_left {α : Type} (d src : List (String × α))
    (k : String) (h : k ∈ akeys d) : k ∈ akeys (aupdate d src) := by
  induction src generalizing d with
  | nil => exact h
  | cons e t ih =>
    obtain ⟨k', v'⟩ := e
    rw [aupdate_cons]
    refine ih _ ?_
    by_cases hk : k ∈ akeys d
    · by_cases hk' : k' ∈ akeys d
      · rw [akeys_aset_of_mem d k' v' hk']; exact hk
      · rw [akeys_aset_not_mem d k' v' hk']
        exact List.mem_append_left _ hk
    · exact absurd h hk

theorem aget_aupdate_not_mem {α : Type} (d src : List (String × α))
    (k : String) (hk : k ∉ akeys src) : aget (aupdate d src) k = aget d k := by
  induction src generalizing d with
  | nil => rfl
  | cons e t ih =>
    obtain ⟨k', v'⟩ := e
    rw [akeys_cons] at hk
    have h1 : k ≠ k' := fun hh => hk (hh ▸ List.mem_cons_self _ _)
    have h2 : k ∉ akeys t := fun hh => hk (List.mem_cons_of_mem _ hh)
    rw [aupdate_cons, ih _ h2, aget_aset_ne _ _ _ _ (fun hh => h1 hh.symm)]

theorem mem_akeys_of_pair {α : Type} (d : List (String × α)) (k : String)
    (v : α) (h : (k, v) ∈ d) : k ∈ akeys d :=
  List.mem_map.mpr ⟨(k, v), h, rfl⟩

theorem exists_pair_of_mem_akeys {α : Type} (d : List (String × α))
    (k : String) (h : k ∈ akeys d) : ∃ v, (k, v) ∈ d := by
  obtain ⟨⟨k', v⟩, hm, he⟩ := List.mem_map.mp h
  refine ⟨v, ?_⟩
  simp only [] at he
  rwa [he] at hm

theorem splitFuel_nonempty (sep : List Char) (fuel : Nat) (l : List Char) :
    splitFuel sep fuel l ≠ [] := by
  cases fuel with
  | zero => simp [splitFuel]
  | succ f =>
    cases l with
    | nil => simp [splitFuel]
    | cons c cs =>
      cases hs : stripPre sep (c :: cs) with
      | some rest => simp [splitFuel, hs]
      | none =>
        simp only [splitFuel, hs]
        cases h2 : splitFuel sep f cs <;> simp

theorem splitFuel_head_single (c : Char) (fuel : Nat) (l : List Char)
    (hf : l.length < fuel) :
    c ∉ (splitFuel [c] fuel l).headD [] := by
  induction fuel generalizing l with
  | zero => exact absurd hf (Nat.not_lt_zero _)
  | succ f ih =>
    cases l with
    | nil => simp [splitFuel]
    | cons c' cs =>
      by_cases hc : c = c'
      · have hs : stripPre [c] (c' :: cs) = some cs := by
          simp [stripPre, hc]
        simp [splitFuel, hs]
      · have hs : stripPre [c] (c' :: cs) = Option.none := by
          simp [stripPre, hc]
        simp only [splitFuel, hs]
        cases h2 : splitFuel [c] f cs with
        | nil => exact absurd h2 (splitFuel_nonempty [c] f cs)
        | cons hd t =>
          simp only [List.headD_cons]
          intro hmem
          rcases List.mem_cons.mp hmem with h | h
          · exact hc h
          · have hlen : cs.length < f := by
              simpa using Nat.lt_of_succ_lt_succ hf
            have := ih cs hlen
            rw [h2] at this
            exact this (by simpa using h)

/-- The head of a `"+"`-split never contains a `'+'`: this is what "port
suffix stripped" means for the address fields. -/
theorem pySplitHead_plus_not_mem (s : String) :
    '+' ∉ (pySplitHead s "+").toList := by
  have hplus : ("+" : String).toList = ['+'] := rfl
  unfold pySplitHead pySplitOn
  rw [hplus]
  cases h2 : splitFuel ['+'] (s.toList.length + 1) s.toList with
  | nil => exact absurd h2 (splitFuel_nonempty _ _ _)
  | cons hd t =>
    have h3 := splitFuel_head_single '+' (s.toList.length + 1) s.toList
      (Nat.lt_succ_self _)
    rw [h2] at h3
    simp only [List.headD_cons] at h3
    simp only [List.map_cons, List.headD_cons]
    exact h3

end Maint

namespace Maint

/-! ### `get_bgp_neighbors_detail` (`junos.py` lines 145–194) -/

/-- `elem[1] is None` test for the null-filtering comprehension
(`junos.py` line 174). -/
def isNoneV : Value → Bool
  | .none => true
  | _ => false

/-- `default_neighbor_details` (`junos.py` lines 159–168). -/
def default_neighbor_details : List (String × Value) :=
  [("up", Value.bool false), ("local_as", Value.int 0),
   ("remote_as", Value.int 0), ("router_id", Value.str ""),
   ("local_address", Value.str ""), ("routing_table", Value.str ""),
   ("import_policy", Value.str ""), ("export_policy", Value.str "")]

/-- `neighbor_details` right after
`neighbor_details.update({elem[0]: elem[1] for elem in neighbor[1]
if elem[1] is not None})` (`junos.py` lines 172–175). -/
def ndInit (raw : String × List (String × Value)) : List (String × Value) :=
  aupdate default_neighbor_details (raw.2.filter (fun e => !isNoneV e.2))

/-- One pass of the AS-number reconciliation loop (`junos.py` lines
177–182): `if not nd[i]: nd[i] = nd.pop(f"{i}_2") else: nd.pop(f"{i}_2")` —
both branches pop the suffixed key with no default. -/
def reconcileAs (nd : List (String × Value)) (i : String) :
    Except PyErr (List (String × Value)) :=
  match aget nd i with
  | Option.none => .error .keyError
  | some cur =>
    match apop nd (i ++ "_2") with
    | Option.none => .error .keyError
    | some (v2, nd') =>
      if truthy cur then .ok nd' else .ok (aset nd' i v2)

/-- Processing of one neighbor row (`junos.py` lines 171–193): AS
reconciliation for `local_as` then `remote_as`, port-suffix strip of
`local_address` (an `AttributeError` if it is not a string), `rib` popped
with no default and its per-table entries flattened in as sibling keys, and
the record keyed by `neighbor[0].split("+")[0]`. -/
def processNeighbor (raw : String × List (String × Value)) :
    Except PyErr (String × List (String × Value)) :=
  match reconcileAs (ndInit raw) "local_as" with
  | .error e => .error e
  | .ok nd1 =>
    match reconcileAs nd1 "remote_as" with
    | .error e => .error e
    | .ok nd2 =>
      match aget nd2 "local_address" with
      | Option.none => .error .keyError
      | some (.str la) =>
        match apop (aset nd2 "local_address"
            (Value.str (pySplitHead la "+"))) "rib" with
        | Option.none => .error .keyError
        | some (.dict ribItems, nd4) =>
          .ok (pySplitHead raw.1 "+", aupdate nd4 ribItems)
        | some _ => .error .attributeError
      | some _ => .error .attributeError

/-- One iteration of the `bgp_detail` accumulation loop:
`bgp_detail.update({neighbor[0].split("+")[0]: neighbor_details})`. -/
def bgpStep (bgp : List (String × Value))
    (n : String × List (String × Value)) :
    Except PyErr (List (String × Value)) :=
  match processNeighbor n with
  | .error e => .error e
  | .ok kv => .ok (aset bgp kv.1 (Value.dict kv.2))

/-- `get_bgp_neighbors_detail` (`junos.py` lines 145–194): fold the
neighbor rows into `bgp_detail`. -/
def get_bgp_neighbors_detail
    (rpcResult : Option (List (String × List (String × Value)))) :
    Except PyErr (List (String × Value)) :=
  (rpc_get rpcResult []).foldlM bgpStep []

theorem reconcileAs_ok_spec (nd nd' : List (String × Value)) (i : String)
    (h : reconcileAs nd i = .ok nd') :
    ∃ cur v2 ndp, aget nd i = some cur ∧
      apop nd (i ++ "_2") = some (v2, ndp) ∧
      nd' = if truthy cur then ndp else aset ndp i v2 := by
  unfold reconcileAs at h
  cases hg : aget nd i with
  | none => rw [hg] at h; cases h
  | some cur =>
    rw [hg] at h
    cases hp : apop nd (i ++ "_2") with
    | none => rw [hp] at h; cases h
    | some p =>
      obtain ⟨v2, ndp⟩ := p
      rw [hp] at h
      cases ht : truthy cur with
      | true =>
        simp only [ht, if_true] at h
        injection h with h'
        exact ⟨cur, v2, ndp, rfl, rfl, by simp [ht, ← h']⟩
      | false =>
        simp only [ht, Bool.false_eq_true, if_false] at h
        injection h with h'
        exact ⟨cur, v2, ndp, rfl, rfl, by simp [ht, ← h']⟩

theorem reconcileAs_ok_get_self (nd nd' : List (String × Value)) (i : String)
    (hne : i ≠ i ++ "_2") (h : reconcileAs nd i = .ok nd') :
    ∃ cur v2, aget nd i = some cur ∧ aget nd (i ++ "_2") = some v2 ∧
      aget nd' i = some (if truthy cur then cur else v2) := by
  obtain ⟨cur, v2, ndp, hg, hp, hnd'⟩ := reconcileAs_ok_spec nd nd' i h
  refine ⟨cur, v2, hg, apop_aget _ _ _ _ hp, ?_⟩
  subst hnd'
  cases ht : truthy cur with
  | true =>
    simp only [ht, if_true]
    rw [aget_apop_ne nd _ i v2 ndp hp hne]
    exact hg
  | false =>
    simp only [ht, Bool.false_eq_true, if_false]
    exact aget_aset_self _ _ _

theorem reconcileAs_ok_get_other (nd nd' : List (String × Value))
    (i j : String) (hj1 : j ≠ i) (hj2 : j ≠ i ++ "_2")
    (h : reconcileAs nd i = .ok nd') : aget nd' j = aget nd j := by
  obtain ⟨cur, v2, ndp, hg, hp, hnd'⟩ := reconcileAs_ok_spec nd nd' i h
  subst hnd'
  have hstep : aget ndp j = aget nd j := aget_apop_ne nd _ j v2 ndp hp hj2
  cases ht : truthy cur with
  | true => simp only [ht, if_true]; exact hstep
  | false =>
    simp only [ht, Bool.false_eq_true, if_false]
    rw [aget_aset_ne _ _ _ _ (fun hh => hj1 hh.symm)]
    exact hstep

theorem reconcileAs_keys_sub (nd nd' : List (String × Value)) (i j : String)
    (h : reconcileAs nd i = .ok nd') (hmem : j ∈ akeys nd') :
    j ∈ akeys nd ∨ j = i := by
  obtain ⟨cur, v2, ndp, hg, hp, hnd'⟩ := reconcileAs_ok_spec nd nd' i h
  subst hnd'
  have hsub := apop_akeys_sublist nd _ v2 ndp hp
  cases ht : truthy cur with
  | true =>
    simp only [ht, if_true] at hmem
    exact Or.inl (hsub.mem hmem)
  | false =>
    simp only [ht, Bool.false_eq_true, if_false] at hmem
    rcases akeys_mem_aset ndp i j v2 hmem with h' | h'
    · exact Or.inl (hsub.mem h')
    · exact Or.inr h'

theorem reconcileAs_not_mem_i2 (nd nd' : List (String × Value)) (i : String)
    (hnd : (akeys nd).Nodup) (hne : i ≠ i ++ "_2")
    (h : reconcileAs nd i = .ok nd') : i ++ "_2" ∉ akeys nd' := by
  obtain ⟨cur, v2, ndp, hg, hp, hnd'⟩ := reconcileAs_ok_spec nd nd' i h
  subst hnd'
  have hnm := apop_not_mem_of_nodup nd _ v2 ndp hnd hp
  cases ht : truthy cur with
  | true => simp only [ht, if_true]; exact hnm
  | false =>
    simp only [ht, Bool.false_eq_true, if_false]
    intro hmem
    rcases akeys_mem_aset ndp i _ v2 hmem with h' | h'
    · exact hnm h'
    · exact hne h'.symm

theorem reconcileAs_nodup (nd nd' : List (String × Value)) (i : String)
    (hnd : (akeys nd).Nodup) (h : reconcileAs nd i = .ok nd') :
    (akeys nd').Nodup := by
  obtain ⟨cur, v2, ndp, hg, hp, hnd'⟩ := reconcileAs_ok_spec nd nd' i h
  subst hnd'
  have hsubnd := (apop_akeys_sublist nd _ v2 ndp hp).nodup hnd
  cases ht : truthy cur with
  | true => simp only [ht, if_true]; exact hsubnd
  | false =>
    simp only [ht, Bool.false_eq_true, if_false]
    exact nodup_akeys_aset _ _ _ hsubnd

theorem processNeighbor_ok_spec (raw : String × List (String × Value))
    (k : String) (fields : List (String × Value))
    (hok : processNeighbor raw = .ok (k, fields)) :
    k = pySplitHead raw.1 "+" ∧
    ∃ u v2 w w2 la ribItems nd4,
      aget (ndInit raw) "local_as" = some u ∧
      aget (ndInit raw) "local_as_2" = some v2 ∧
      aget (ndInit raw) "remote_as" = some w ∧
      aget (ndInit raw) "remote_as_2" = some w2 ∧
      aget (ndInit raw) "local_address" = some (Value.str la) ∧
      aget (ndInit raw) "rib" = some (Value.dict ribItems) ∧
      fields = aupdate nd4 ribItems ∧
      aget nd4 "local_as" = some (if truthy u then u else v2) ∧
      aget nd4 "remote_as" = some (if truthy w then w else w2) ∧
      aget nd4 "local_address" = some (Value.str (pySplitHead la "+")) ∧
      "local_as_2" ∉ akeys nd4 ∧ "remote_as_2" ∉ akeys nd4 := by
  have e1 : "local_as" ++ "_2" = "local_as_2" := rfl
  have e2 : "remote_as" ++ "_2" = "remote_as_2" := rfl
  have hnd0 : (akeys (ndInit raw)).Nodup :=
    nodup_akeys_aupdate _ _ (by decide)
  unfold processNeighbor at hok
  cases h1 : reconcileAs (ndInit raw) "local_as" with
  | error e => rw [h1] at hok; cases hok
  | ok nd1 =>
    rw [h1] at hok
    try dsimp only at hok
    cases h2 : reconcileAs nd1 "remote_as" with
    | error e => rw [h2] at hok; cases hok
    | ok nd2 =>
      rw [h2] at hok
      try dsimp only at hok
      cases hla : aget nd2 "local_address" with
      | none => rw [hla] at hok; cases hok
      | some lav =>
        rw [hla] at hok
        cases lav with
        | none => simp at hok
        | bool b => simp at hok
        | int n => simp at hok
        | list l => simp at hok
        | dict d => simp at hok
        | str la =>
          dsimp only at hok
          cases hpop : apop (aset nd2 "local_address"
              (Value.str (pySplitHead la "+"))) "rib" with
          | none => rw [hpop] at hok; cases hok
          | some p =>
            obtain ⟨ribv, nd4⟩ := p
            rw [hpop] at hok
            cases ribv with
            | none => simp at hok
            | bool b => simp at hok
            | int n => simp at hok
            | str s => simp at hok
            | list l => simp at hok
            | dict ribItems =>
              dsimp only at hok
              injection hok with h'
              have hk := congrArg Prod.fst h'
              have hf := congrArg Prod.snd h'
              simp only [] at hk hf
              subst hk
              subst hf
              refine ⟨rfl, ?_⟩
              -- facts about nd1 from the local_as reconciliation
              obtain ⟨u, v2, hu, hv2, hl1⟩ :=
                reconcileAs_ok_get_self _ _ "local_as" (by decide) h1
              rw [e1] at hv2
              have hnd1 : (akeys nd1).Nodup :=
                reconcileAs_nodup _ _ _ hnd0 h1
              -- facts about nd2 from the remote_as reconciliation
              obtain ⟨w, w2, hw, hw2, hr1⟩ :=
                reconcileAs_ok_get_self _ _ "remote_as" (by decide) h2
              rw [e2] at hw2
              -- transfer nd1 lookups back to nd0
              have hw0 : aget (ndInit raw) "remote_as" = some w := by
                rw [← reconcileAs_ok_get_other _ _ "local_as" "remote_as"
                  (by decide) (by decide) h1]
                exact hw
              have hw20 : aget (ndInit raw) "remote_as_2" = some w2 := by
                rw [← reconcileAs_ok_get_other _ _ "local_as" "remote_as_2"
                  (by decide) (by decide) h1]
                exact hw2
              -- local_as value survives into nd2
              have hl2 : aget nd2 "local_as" =
                  some (if truthy u then u else v2) := by
                rw [reconcileAs_ok_get_other _ _ "remote_as" "local_as"
                  (by decide) (by decide) h2]
                exact hl1
              -- local_address transferred back to nd0
              have hla0 : aget (ndInit raw) "local_address" =
                  some (Value.str la) := by
                rw [← reconcileAs_ok_get_other _ _ "local_as" "local_address"
                  (by decide) (by decide) h1,
                  ← reconcileAs_ok_get_other _ _ "remote_as" "local_address"
                  (by decide) (by decide) h2]
                exact hla
              -- rib transferred back to nd0
              have hrib3 := apop_aget _ _ _ _ hpop
              have hrib0 : aget (ndInit raw) "rib" =
                  some (Value.dict ribItems) := by
                rw [← reconcileAs_ok_get_other _ _ "local_as" "rib"
                  (by decide) (by decide) h1,
                  ← reconcileAs_ok_get_other _ _ "remote_as" "rib"
                  (by decide) (by decide) h2,
                  ← aget_aset_ne nd2 "local_address" "rib"
                  (Value.str (pySplitHead la "+")) (by decide)]
                exact hrib3
              -- nd4 lookups
              have h4l : aget nd4 "local_as" =
                  some (if truthy u then u else v2) := by
                rw [aget_apop_ne _ "rib" "local_as" _ _ hpop (by decide),
                  aget_aset_ne nd2 "local_address" "local_as" _ (by decide)]
                exact hl2
              have h4r : aget nd4 "remote_as" =
                  some (if truthy w then w else w2) := by
                rw [aget_apop_ne _ "rib" "remote_as" _ _ hpop (by decide),
                  aget_aset_ne nd2 "local_address" "remote_as" _ (by decide)]
                exact hr1
              have h4la : aget nd4 "local_address" =
                  some (Value.str (pySplitHead la "+")) := by
                rw [aget_apop_ne _ "rib" "local_address" _ _ hpop (by decide)]
                exact aget_aset_self _ _ _
              -- the suffixed keys are gone
              have hn1 : "local_as_2" ∉ akeys nd1 := by
                have := reconcileAs_not_mem_i2 _ _ "local_as" hnd0
                  (by decide) h1
                rwa [e1] at this
              have hn2 : "local_as_2" ∉ akeys nd2 := by
                intro hmem
                rcases reconcileAs_keys_sub _ _ "remote_as" _ h2 hmem
                  with h' | h'
                · exact hn1 h'
                · exact absurd h' (by decide)
              have hn2r : "remote_as_2" ∉ akeys nd2 := by
                have := reconcileAs_not_mem_i2 _ _ "remote_as" hnd1
                  (by decide) h2
                rwa [e2] at this
              have hn3 : "local_as_2" ∉
                  akeys (aset nd2 "local_address"
                    (Value.str (pySplitHead la "+"))) := by
                intro hmem
                rcases akeys_mem_aset _ _ _ _ hmem with h' | h'
                · exact hn2 h'
                · exact absurd h' (by decide)
              have hn3r : "remote_as_2" ∉
                  akeys (aset nd2 "local_address"
                    (Value.str (pySplitHead la "+"))) := by
                intro hmem
                rcases akeys_mem_aset _ _ _ _ hmem with h' | h'
                · exact hn2r h'
                · exact absurd h' (by decide)
              have hsub4 := apop_akeys_sublist _ _ _ _ hpop
              exact ⟨u, v2, w, w2, la, ribItems, nd4, hu, hv2, hw0, hw20,
                hla0, hrib0, rfl, h4l, h4r, h4la,
                fun hm => hn3 (hsub4.mem hm),
                fun hm => hn3r (hsub4.mem hm)⟩

theorem bgp_fold_provenance (data : List (String × List (String × Value)))
    (acc out : List (String × Value))
    (hok : data.foldlM bgpStep acc = .ok out) :
    ∀ k v, (k, v) ∈ out → (k, v) ∈ acc ∨
      ∃ raw ∈ data, ∃ fields, processNeighbor raw = .ok (k, fields) ∧
        v = Value.dict fields := by
  induction data generalizing acc with
  | nil =>
    intro k v hkv
    simp only [List.foldlM_nil] at hok
    injection hok with h
    exact Or.inl (h ▸ hkv)
  | cons n t ih =>
    intro k v hkv
    rw [List.foldlM_cons] at hok
    cases hpn : processNeighbor n with
    | error e =>
      simp only [bgpStep, hpn, except_bind_error] at hok
      cases hok
    | ok kv =>
      simp only [bgpStep, hpn, except_bind_ok] at hok
      rcases ih _ hok k v hkv with h' | h'
      · rcases mem_aset_cases _ _ _ _ _ h' with h'' | h''
        · exact Or.inl h''
        · refine Or.inr ⟨n, List.mem_cons_self _ _, kv.2, ?_, h''.2⟩
          rw [h''.1]
          exact hpn
      · obtain ⟨raw, hraw, rest⟩ := h'
        exact Or.inr ⟨raw, List.mem_cons_of_mem _ hraw, rest⟩

/-- Keys flattened out of the per-routing-table `rib` dict must not collide
with the record's fixed field names (on real devices those keys are
routing-table names such as `inet.0`). -/
def ribClean (raw : String × List (String × Value)) : Prop :=
  ∀ ribItems, aget (ndInit raw) "rib" = some (Value.dict ribItems) →
    "local_as" ∉ akeys ribItems ∧ "remote_as" ∉ akeys ribItems ∧
    "local_as_2" ∉ akeys ribItems ∧ "remote_as_2" ∉ akeys ribItems ∧
    "local_address" ∉ akeys ribItems

/-- **C4.** For every neighbor record produced by `get_bgp_neighbors_detail`
(on rows whose routing-table keys do not collide with the fixed field
names), exactly one of the two AS-number source fields survives
reconciliation into the final `local_as`/`remote_as` values — the unsuffixed
one when it is truthy, else the `_2`-suffixed fallback — the `_2`-suffixed
keys never appear in the output record, and any `+nnn` port suffix is
stripped from both the neighbor key and the `local_address` field. -/
theorem bgp_detail_reconciliation
    (data : List (String × List (String × Value)))
    (out : List (String × Value))
    (hok : get_bgp_neighbors_detail (some data) = .ok out) :
    ∀ k rec, (k, rec) ∈ out →
      ∃ raw ∈ data, ∃ fields, processNeighbor raw = .ok (k, fields) ∧
        rec = Value.dict fields ∧
        k = pySplitHead raw.1 "+" ∧ '+' ∉ k.toList ∧
        (ribClean raw →
          "local_as_2" ∉ akeys fields ∧ "remote_as_2" ∉ akeys fields ∧
          (∃ u v2, aget (ndInit raw) "local_as" = some u ∧
            aget (ndInit raw) "local_as_2" = some v2 ∧
            aget fields "local_as" = some (if truthy u then u else v2)) ∧
          (∃ w w2, aget (ndInit raw) "remote_as" = some w ∧
            aget (ndInit raw) "remote_as_2" = some w2 ∧
            aget fields "remote_as" = some (if truthy w then w else w2)) ∧
          (∃ la, aget (ndInit raw) "local_address" = some (Value.str la) ∧
            aget fields "local_address" =
              some (Value.str (pySplitHead la "+")) ∧
            '+' ∉ (pySplitHead la "+").toList)) := by
  intro k rec hkrec
  rcases bgp_fold_provenance data [] out hok k rec hkrec with h | h
  · cases h
  obtain ⟨raw, hraw, fields, hpn, hrec⟩ := h
  obtain ⟨hk, u, v2, w, w2, la, ribItems, nd4, hu, hv2, hw, hw2, hla, hrib,
    hf, h4l, h4r, h4la, hn4l, hn4r⟩ := processNeighbor_ok_spec raw k fields hpn
  refine ⟨raw, hraw, fields, hpn, hrec, hk,
    by rw [hk]; exact pySplitHead_plus_not_mem _, ?_⟩
  intro hclean
  obtain ⟨hc1, hc2, hc3, hc4, hc5⟩ := hclean ribItems hrib
  subst hf
  refine ⟨?_, ?_, ⟨u, v2, hu, hv2, ?_⟩, ⟨w, w2, hw, hw2, ?_⟩,
    ⟨la, hla, ?_, pySplitHead_plus_not_mem _⟩⟩
  · intro hm
    rcases akeys_mem_aupdate _ _ _ hm with h' | h'
    · exact hn4l h'
    · exact hc3 h'
  · intro hm
    rcases akeys_mem_aupdate _ _ _ hm with h' | h'
    · exact hn4r h'
    · exact hc4 h'
  · rw [aget_aupdate_not_mem _ _ _ hc1]
    exact h4l
  · rw [aget_aupdate_not_mem _ _ _ hc2]
    exact h4r
  · rw [aget_aupdate_not_mem _ _ _ hc5]
    exact h4la

/-- A concrete raw neighbor row for the C4 witness: a null `local_as`
(filtered out, so the `_2` fallback survives), a truthy `remote_as` (so its
`_2` fallback is dropped), port suffixes on both address fields, one rib
table. -/
def c4items : List (String × Value) :=
  [("up", Value.bool true),
   ("local_as", Value.none),
   ("local_as_2", Value.int 65001),
   ("remote_as", Value.int 65000),
   ("remote_as_2", Value.int 65000),
   ("router_id", Value.str "10.0.0.9"),
   ("local_address", Value.str "10.0.0.1+179"),
   ("rib", Value.dict [("inet.0",
     Value.dict [("active_prefix_count", Value.int 4)])])]

/-- The record `get_bgp_neighbors_detail` produces for `c4items`. -/
def c4fields : List (String × Value) :=
  [("up", Value.bool true),
   ("local_as", Value.int 65001),
   ("remote_as", Value.int 65000),
   ("router_id", Value.str "10.0.0.9"),
   ("local_address", Value.str "10.0.0.1"),
   ("routing_table", Value.str ""),
   ("import_policy", Value.str ""),
   ("export_policy", Value.str ""),
   ("inet.0", Value.dict [("active_prefix_count", Value.int 4)])]

/-- Witness for C4 at the concrete neighbor row `c4items`. -/
theorem bgp_detail_reconciliation_witness :
    get_bgp_neighbors_detail (some [("10.0.0.9+179", c4items)]) =
      .ok [("10.0.0.9", Value.dict c4fields)] ∧
    (∃ raw ∈ [("10.0.0.9+179", c4items)], ∃ fields,
      processNeighbor raw = .ok ("10.0.0.9", fields) ∧
      Value.dict c4fields = Value.dict fields ∧
      "10.0.0.9" = pySplitHead raw.1 "+" ∧ '+' ∉ "10.0.0.9".toList ∧
      (ribClean raw →
        "local_as_2" ∉ akeys fields ∧ "remote_as_2" ∉ akeys fields ∧
        (∃ u v2, aget (ndInit raw) "local_as" = some u ∧
          aget (ndInit raw) "local_as_2" = some v2 ∧
          aget fields "local_as" = some (if truthy u then u else v2)) ∧
        (∃ w w2, aget (ndInit raw) "remote_as" = some w ∧
          aget (ndInit raw) "remote_as_2" = some w2 ∧
          aget fields "remote_as" = some (if truthy w then w else w2)) ∧
        (∃ la, aget (ndInit raw) "local_address" = some (Value.str la) ∧
          aget fields "local_address" =
            some (Value.str (pySplitHead la "+")) ∧
          '+' ∉ (pySplitHead la "+").toList))) :=
  ⟨rfl, bgp_detail_reconciliation [("10.0.0.9+179", c4items)]
    [("10.0.0.9", Value.dict c4fields)] rfl "10.0.0.9" (Value.dict c4fields)
    (List.mem_singleton.mpr rfl)⟩

/-! ### The pop-with-no-default behaviour behind C10 -/

theorem apop_some_of_aget_some {α : Type} (d : List (String × α))
    (k : String) (v : α) (h : aget d k = some v) :
    ∃ d', apop d k = some (v, d') := by
  induction d with
  | nil => simp [aget] at h
  | cons hd t ih =>
    obtain ⟨k', v'⟩ := hd
    by_cases hk : k' = k
    · simp [aget, hk] at h
      exact ⟨t, by simp [apop, hk, h]⟩
    · simp [aget, hk] at h
      obtain ⟨d', hd'⟩ := ih h
      exact ⟨(k', v') :: d', by simp [apop, hk, hd']⟩

/-- When the `_2`-suffixed key is absent, the reconciliation pass raises
`KeyError` (pop with no default). -/
theorem reconcileAs_keyError (nd : List (String × Value)) (i : String)
    (h : aget nd (i ++ "_2") = Option.none) :
    reconcileAs nd i = .error .keyError := by
  unfold reconcileAs
  cases hg : aget nd i with
  | none => rfl
  | some cur => rw [apop_eq_none_of_aget_none _ _ h]

/-- A raw neighbor row whose `ndInit` lacks `local_as_2` or `remote_as_2`
makes `processNeighbor` raise `KeyError`. -/
theorem processNeighbor_missing_as2 (raw : String × List (String × Value))
    (hmiss : "local_as_2" ∉ akeys (ndInit raw) ∨
             "remote_as_2" ∉ akeys (ndInit raw)) :
    processNeighbor raw = .error .keyError := by
  have e1 : "local_as" ++ "_2" = "local_as_2" := rfl
  have e2 : "remote_as" ++ "_2" = "remote_as_2" := rfl
  by_cases hl : "local_as_2" ∈ akeys (ndInit raw)
  · -- the local pass succeeds, so remote_as_2 must be the missing one
    have hm : "remote_as_2" ∉ akeys (ndInit raw) := by
      rcases hmiss with h | h
      · exact absurd hl h
      · exact h
    obtain ⟨lv, hlv⟩ := aget_some_of_mem_akeys _ _ hl
    obtain ⟨u, hu⟩ := aget_some_of_mem_akeys (ndInit raw) "local_as"
      (mem_akeys_aupdate_left _ _ _ (by decide))
    obtain ⟨ndp, hpop⟩ := apop_some_of_aget_some _ _ _ hlv
    cases h1 : reconcileAs (ndInit raw) "local_as" with
    | error e =>
      unfold reconcileAs at h1
      rw [hu, e1, hpop] at h1
      cases ht : truthy u with
      | true => simp only [ht, if_true] at h1; cases h1
      | false =>
        simp only [ht, Bool.false_eq_true, if_false] at h1
        cases h1
    | ok nd1 =>
      unfold processNeighbor
      rw [h1]
      dsimp only
      rw [reconcileAs_keyError nd1 "remote_as" ?hnone]
      case hnone =>
        rw [e2, reconcileAs_ok_get_other _ _ "local_as" "remote_as_2"
          (by decide) (by decide) h1]
        exact aget_none_of_not_mem_akeys _ _ hm
  · -- the local pass itself raises
    unfold processNeighbor
    rw [reconcileAs_keyError (ndInit raw) "local_as"
      (by rw [e1]; exact aget_none_of_not_mem_akeys _ _ hl)]

theorem foldlM_except_no_ok {ε α β : Type} (f : α → β → Except ε α)
    (l : List β) (x : β) (hx : x ∈ l)
    (hf : ∀ acc, ∃ e, f acc x = .error e) :
    ∀ acc out, l.foldlM f acc ≠ .ok out := by
  induction l with
  | nil => cases hx
  | cons y t ih =>
    intro acc out h
    rw [List.foldlM_cons] at h
    cases hfy : f acc y with
    | error e =>
      rw [hfy, except_bind_error] at h
      cases h
    | ok acc2 =>
      rw [hfy, except_bind_ok] at h
      rcases List.mem_cons.mp hx with rfl | hx2
      · obtain ⟨e, he⟩ := hf acc
        rw [he] at hfy
        cases hfy
      · exact ih hx2 _ _ h

/-- **C10.** `get_bgp_neighbors_detail` requires every raw neighbor row to
supply non-null `local_as_2` and `remote_as_2` fields: each reconciliation
pass pops the suffixed key with no default after null-valued source fields
have been filtered out, so a row lacking either suffixed field — or
reporting it as `None` — makes the getter raise a `KeyError` instead of
returning a result. -/
theorem bgp_detail_requires_as2
    (data : List (String × List (String × Value)))
    (raw : String × List (String × Value)) (hmem : raw ∈ data)
    (hmiss : (∀ v, ("local_as_2", v) ∈ raw.2 → v = Value.none) ∨
             (∀ v, ("remote_as_2", v) ∈ raw.2 → v = Value.none)) :
    (∀ out, get_bgp_neighbors_detail (some data) ≠ .ok out) ∧
    (∀ rest, data = raw :: rest →
      get_bgp_neighbors_detail (some data) = .error .keyError) := by
  have habsent : ∀ key : String, key ∉ akeys default_neighbor_details →
      (∀ v, (key, v) ∈ raw.2 → v = Value.none) →
      key ∉ akeys (ndInit raw) := by
    intro key hdef hnull hmemk
    rcases akeys_mem_aupdate _ _ _ hmemk with h | h
    · exact hdef h
    · obtain ⟨v, hv⟩ := exists_pair_of_mem_akeys _ _ h
      have hfil := List.mem_filter.mp hv
      have : isNoneV v = false := by
        have := hfil.2
        simp only [Bool.not_eq_true'] at this
        exact this
      rw [hnull v hfil.1] at this
      cases this
  have hpn : processNeighbor raw = .error .keyError := by
    apply processNeighbor_missing_as2
    rcases hmiss with h | h
    · exact Or.inl (habsent _ (by decide) h)
    · exact Or.inr (habsent _ (by decide) h)
  constructor
  · intro out
    exact foldlM_except_no_ok bgpStep data raw hmem
      (fun acc => ⟨.keyError, by simp only [bgpStep, hpn]⟩) [] out
  · intro rest hdata
    subst hdata
    show (raw :: rest).foldlM bgpStep [] = .error .keyError
    rw [List.foldlM_cons]
    simp only [bgpStep, hpn, except_bind_error]

/-- A raw neighbor row lacking `local_as_2` entirely, for the C10
witness. -/
def c10items : List (String × Value) :=
  [("up", Value.bool true),
   ("local_as", Value.int 65001),
   ("remote_as", Value.int 65000),
   ("remote_as_2", Value.int 65000),
   ("local_address", Value.str "10.0.0.1"),
   ("rib", Value.dict [("inet.0",
     Value.dict [("active_prefix_count", Value.int 4)])])]

/-- Witness for C10: the getter raises `KeyError` on `c10items` and returns
no result. -/
theorem bgp_detail_requires_as2_witness :
    get_bgp_neighbors_detail (some [("10.0.0.9", c10items)]) =
      .error .keyError ∧
    get_bgp_neighbors_detail (some [("10.0.0.9", c10items)]) ≠ .ok [] :=
  have hnull : ∀ v, ("local_as_2", v) ∈ ("10.0.0.9", c10items).2 →
      v = Value.none := by
    intro v hv
    simp [c10items] at hv
  ⟨(bgp_detail_requires_as2 [("10.0.0.9", c10items)] ("10.0.0.9", c10items)
      (List.mem_singleton.mpr rfl) (Or.inl hnull)).2 [] rfl,
   (bgp_detail_requires_as2 [("10.0.0.9", c10items)] ("10.0.0.9", c10items)
      (List.mem_singleton.mpr rfl) (Or.inl hnull)).1 []⟩

end Maint

namespace Maint

/-! ### `lib/getters.py` — `Main._interface_common_getters`
(lines 34–56) -/

theorem aget_mem {α : Type} (d : List (String × α)) (k : String) (v : α)
    (h : aget d k = some v) : (k, v) ∈ d := by
  induction d with
  | nil => simp [aget] at h
  | cons hd t ih =>
    obtain ⟨k', v'⟩ := hd
    by_cases hk : k' = k
    · simp [aget, hk] at h
      simp [hk, h]
    · simp [aget, hk] at h
      exact List.mem_cons_of_mem _ (ih h)

/-- One element of a merge pass:
`ifaces_all[k].update(v) … if ifaces_all.get(k)` — a source row lands only
on a key already present in the accumulator with a truthy (non-empty)
record. -/
def mergeStep (a : List (String × List (String × Value)))
    (kv : String × List (String × Value)) :
    List (String × List (String × Value)) :=
  match aget a kv.1 with
  | some av => if !av.isEmpty then aset a kv.1 (aupdate av kv.2) else a
  | Option.none => a

/-- One merge pass over a source table (`getters.py` lines 48–49). -/
def mergePass (acc src : List (String × List (String × Value))) :
    List (String × List (String × Value)) :=
  src.foldl mergeStep acc

/-- The `mpls_enabled: False` fill-in (`getters.py` lines 51–54):
`if not ifaces_all[i].get("mpls_enabled"): …update({"mpls_enabled":
False})`. -/
def mplsFill (d : List (String × List (String × Value))) :
    List (String × List (String × Value)) :=
  d.map (fun kv =>
    if truthyO (aget kv.2 "mpls_enabled") then kv
    else (kv.1, aset kv.2 "mpls_enabled" (Value.bool false)))

/-- `_interface_common_getters` (`getters.py` lines 34–56): the source
tuple `(ip_ifaces, ip_ifaces, mpls, isis, arp, nd, *extra_inputs)` (note
`ip_ifaces` listed twice in the source) merged onto the base inventory,
then the `mpls_enabled` fill. -/
def interface_common_getters
    (ifaces_all ip_ifaces mpls isis arp nd :
      List (String × List (String × Value)))
    (extra_inputs : List (List (String × List (String × Value)))) :
    List (String × List (String × Value)) :=
  mplsFill
    (([ip_ifaces, ip_ifaces, mpls, isis, arp, nd] ++ extra_inputs).foldl
      mergePass ifaces_all)

theorem mergeStep_keys (acc : List (String × List (String × Value)))
    (kv : String × List (String × Value)) :
    akeys (mergeStep acc kv) = akeys acc := by
  cases hga : aget acc kv.1 with
  | none => simp [mergeStep, hga]
  | some av =>
    by_cases he : !av.isEmpty
    · simp only [mergeStep, hga]
      rw [if_pos he]
      exact akeys_aset_of_mem _ _ _ (mem_akeys_of_aget _ _ _ hga)
    · simp only [mergeStep, hga]
      rw [if_neg he]

theorem mergePass_keys (src acc : List (String × List (String × Value))) :
    akeys (mergePass acc src) = akeys acc := by
  induction src generalizing acc with
  | nil => rfl
  | cons kv t ih =>
    show akeys (mergePass (mergeStep acc kv) t) = akeys acc
    rw [ih, mergeStep_keys]

theorem mergePass_provenance (src acc : List (String × List (String × Value)))
    (k : String) (rec : List (String × Value))
    (h : (k, rec) ∈ mergePass acc src) :
    ∃ rec0, (k, rec0) ∈ acc ∧ ∀ f ∈ akeys rec,
      f ∈ akeys rec0 ∨ ∃ r, (k, r) ∈ src ∧ f ∈ akeys r := by
  induction src generalizing acc with
  | nil => exact ⟨rec, h, fun f hf => Or.inl hf⟩
  | cons kv t ih =>
    obtain ⟨k1, v1⟩ := kv
    have h' : (k, rec) ∈ mergePass (mergeStep acc (k1, v1)) t := h
    obtain ⟨rec1, hrec1, hp⟩ := ih _ h'
    cases hga : aget acc k1 with
    | none =>
      simp only [mergeStep, hga] at hrec1
      refine ⟨rec1, hrec1, fun f hf => ?_⟩
      rcases hp f hf with hl | ⟨r, hr, hfr⟩
      · exact Or.inl hl
      · exact Or.inr ⟨r, List.mem_cons_of_mem _ hr, hfr⟩
    | some av =>
      simp only [mergeStep, hga] at hrec1
      by_cases he : !av.isEmpty
      · rw [if_pos he] at hrec1
        rcases mem_aset_cases _ _ _ _ _ hrec1 with hm | hm
        · refine ⟨rec1, hm, fun f hf => ?_⟩
          rcases hp f hf with hl | ⟨r, hr, hfr⟩
          · exact Or.inl hl
          · exact Or.inr ⟨r, List.mem_cons_of_mem _ hr, hfr⟩
        · obtain ⟨hmk, hmr⟩ := hm
          subst hmk
          refine ⟨av, aget_mem _ _ _ hga, fun f hf => ?_⟩
          rcases hp f hf with hl | ⟨r, hr, hfr⟩
          · rw [hmr] at hl
            rcases akeys_mem_aupdate _ _ _ hl with h1 | h1
            · exact Or.inl h1
            · exact Or.inr ⟨v1, List.mem_cons_self _ _, h1⟩
          · exact Or.inr ⟨r, List.mem_cons_of_mem _ hr, hfr⟩
      · rw [if_neg he] at hrec1
        refine ⟨rec1, hrec1, fun f hf => ?_⟩
        rcases hp f hf with hl | ⟨r, hr, hfr⟩
        · exact Or.inl hl
        · exact Or.inr ⟨r, List.mem_cons_of_mem _ hr, hfr⟩

theorem mergeFold_keys (tables : List (List (String × List (String × Value))))
    (acc : List (String × List (String × Value))) :
    akeys (tables.foldl mergePass acc) = akeys acc := by
  induction tables generalizing acc with
  | nil => rfl
  | cons t ts ih => rw [List.foldl_cons, ih, mergePass_keys]

theorem mergeFold_provenance
    (tables : List (List (String × List (String × Value))))
    (acc : List (String × List (String × Value)))
    (k : String) (rec : List (String × Value))
    (h : (k, rec) ∈ tables.foldl mergePass acc) :
    ∃ rec0, (k, rec0) ∈ acc ∧ ∀ f ∈ akeys rec,
      f ∈ akeys rec0 ∨ ∃ t ∈ tables, ∃ r, (k, r) ∈ t ∧ f ∈ akeys r := by
  induction tables generalizing acc with
  | nil => exact ⟨rec, h, fun f hf => Or.inl hf⟩
  | cons t1 ts ih =>
    rw [List.foldl_cons] at h
    obtain ⟨rec1, h1, hp1⟩ := ih _ h
    obtain ⟨rec0, h0, hp0⟩ := mergePass_provenance t1 acc k rec1 h1
    refine ⟨rec0, h0, fun f hf => ?_⟩
    rcases hp1 f hf with hl | ⟨t, ht, r, hr, hfr⟩
    · rcases hp0 f hl with h2 | ⟨r, hr, hfr⟩
      · exact Or.inl h2
      · exact Or.inr ⟨t1, List.mem_cons_self _ _, r, hr, hfr⟩
    · exact Or.inr ⟨t, List.mem_cons_of_mem _ ht, r, hr, hfr⟩

theorem mplsFill_keys (d : List (String × List (String × Value))) :
    akeys (mplsFill d) = akeys d := by
  induction d with
  | nil => rfl
  | cons kv t ih =>
    obtain ⟨k, rec⟩ := kv
    by_cases hm : truthyO (aget rec "mpls_enabled")
    · simp only [mplsFill, List.map_cons, if_pos hm]
      simp only [mplsFill] at ih
      simp [ih]
    · simp only [mplsFill, List.map_cons, if_neg hm]
      simp only [mplsFill] at ih
      simp [ih]

theorem mplsFill_mem (d : List (String × List (String × Value)))
    (k : String) (rec : List (String × Value))
    (h : (k, rec) ∈ mplsFill d) :
    ∃ rec0, (k, rec0) ∈ d ∧
      ((truthyO (aget rec0 "mpls_enabled") = true ∧ rec = rec0) ∨
       (truthyO (aget rec0 "mpls_enabled") = false ∧
        rec = aset rec0 "mpls_enabled" (Value.bool false))) := by
  obtain ⟨⟨k0, rec0⟩, hmem, heq⟩ := List.mem_map.mp h
  by_cases hm : truthyO (aget rec0 "mpls_enabled")
  · rw [if_pos hm] at heq
    have hk : k0 = k := congrArg Prod.fst heq
    have hr : rec0 = rec := congrArg Prod.snd heq
    subst hk
    exact ⟨rec0, hmem, Or.inl ⟨hm, hr.symm⟩⟩
  · rw [if_neg hm] at heq
    have hk : k0 = k := congrArg Prod.fst heq
    have hr : aset rec0 "mpls_enabled" (Value.bool false) = rec :=
      congrArg Prod.snd heq
    subst hk
    exact ⟨rec0, hmem, Or.inr ⟨by simpa using hm, hr.symm⟩⟩

/-- **C9.** After `_interface_common_getters`: the returned mapping's key
set equals the base inventory's key set (rows of later source tables keyed
by interfaces absent from the base inventory are silently dropped); every
surviving record has an `mpls_enabled` field, explicitly `False` when
neither the base inventory nor any source table reported one; and every
other field of a surviving record was reported by the base inventory or by
some source table for that interface. -/
theorem interface_merge_invariants
    (base ip mpls isis arp nd : List (String × List (String × Value)))
    (extra : List (List (String × List (String × Value)))) :
    akeys (interface_common_getters base ip mpls isis arp nd extra) =
      akeys base ∧
    (∀ k rec,
      (k, rec) ∈ interface_common_getters base ip mpls isis arp nd extra →
      (∃ v, aget rec "mpls_enabled" = some v) ∧
      ((∀ brec, (k, brec) ∈ base → "mpls_enabled" ∉ akeys brec) →
       (∀ t ∈ [ip, ip, mpls, isis, arp, nd] ++ extra, ∀ r, (k, r) ∈ t →
          "mpls_enabled" ∉ akeys r) →
        aget rec "mpls_enabled" = some (Value.bool false)) ∧
      (∀ f ∈ akeys rec, f ≠ "mpls_enabled" →
        (∃ brec, (k, brec) ∈ base ∧ f ∈ akeys brec) ∨
        (∃ t ∈ [ip, ip, mpls, isis, arp, nd] ++ extra, ∃ r, (k, r) ∈ t ∧
          f ∈ akeys r))) := by
  constructor
  · show akeys (mplsFill _) = akeys base
    rw [mplsFill_keys, mergeFold_keys]
  · intro k rec hrec
    obtain ⟨rec0, hrec0, hfill⟩ := mplsFill_mem _ k rec hrec
    obtain ⟨brec, hbrec, hprov⟩ := mergeFold_provenance _ base k rec0 hrec0
    refine ⟨?_, ?_, ?_⟩
    · rcases hfill with ⟨hm, hre⟩ | ⟨hm, hre⟩
      · subst hre
        cases hga : aget rec "mpls_enabled" with
        | none =>
          rw [hga] at hm
          simp [truthyO] at hm
        | some v => exact ⟨v, rfl⟩
      · subst hre
        exact ⟨Value.bool false, aget_aset_self _ _ _⟩
    · intro hbase htables
      have hnomem : "mpls_enabled" ∉ akeys rec0 := by
        intro hmem
        rcases hprov _ hmem with h1 | ⟨t, ht, r, hr, hfr⟩
        · exact hbase brec hbrec h1
        · exact htables t ht r hr hfr
      have hnone : aget rec0 "mpls_enabled" = Option.none :=
        aget_none_of_not_mem_akeys _ _ hnomem
      rcases hfill with ⟨hm, hre⟩ | ⟨hm, hre⟩
      · rw [hnone] at hm
        simp [truthyO] at hm
      · subst hre
        exact aget_aset_self _ _ _
    · intro f hf hfne
      have hf0 : f ∈ akeys rec0 := by
        rcases hfill with ⟨hm, hre⟩ | ⟨hm, hre⟩
        · exact hre ▸ hf
        · subst hre
          rcases akeys_mem_aset _ _ _ _ hf with h1 | h1
          · exact h1
          · exact absurd h1 hfne
      rcases hprov f hf0 with h1 | ⟨t, ht, r, hr, hfr⟩
      · exact Or.inl ⟨brec, hbrec, h1⟩
      · exact Or.inr ⟨t, ht, r, hr, hfr⟩

/-- Base inventory for the C9 witness. -/
def c9base : List (String × List (String × Value)) :=
  [("et-1", [("is_enabled", Value.bool true)])]

/-- IP-interface table for the C9 witness: the `et-9` row has no matching
base-inventory key and is silently dropped. -/
def c9ip : List (String × List (String × Value)) :=
  [("et-1", [("ipv4_address", Value.str "10.0.0.1/30")]),
   ("et-9", [("mtu", Value.int 1500)])]

/-- The merged record the C9 witness run produces for `et-1`. -/
def c9rec : List (String × Value) :=
  [("is_enabled", Value.bool true),
   ("ipv4_address", Value.str "10.0.0.1/30"),
   ("mpls_enabled", Value.bool false)]

/-- Witness for C9: key set preserved (the unmatched `et-9` row dropped),
and the surviving record gets an explicit `mpls_enabled: False` because no
source reported one. -/
theorem interface_merge_invariants_witness :
    interface_common_getters c9base c9ip [] [] [] [] [] =
      [("et-1", c9rec)] ∧
    akeys (interface_common_getters c9base c9ip [] [] [] [] []) =
      akeys c9base ∧
    aget c9rec "mpls_enabled" = some (Value.bool false) := by
  refine ⟨rfl, (interface_merge_invariants c9base c9ip [] [] [] [] []).1, ?_⟩
  have hmem : ("et-1", c9rec) ∈
      interface_common_getters c9base c9ip [] [] [] [] [] :=
    show ("et-1", c9rec) ∈ [("et-1", c9rec)] from List.mem_cons_self _ _
  refine ((interface_merge_invariants c9base c9ip [] [] [] [] []).2
    "et-1" c9rec hmem).2.1 ?_ ?_
  · intro brec h
    simp [c9base] at h
    rw [h]
    decide
  · intro t ht r hr
    simp at ht
    rcases ht with ht | ht
    · rw [ht] at hr
      simp [c9ip] at hr
      rw [hr]
      decide
    · rw [ht] at hr
      simp at hr

end Maint

namespace Maint

/-! ### `lib/getters.py` — `Main.circuits_pms` (lines 115–227)

External collaborators are fields of `CircuitsEnv`; the merged interface
inventory is pre-collected (lines 121–122).  `checkTime` is the
`time.time()` reading at the `counter == 0` check (line 209), and
`start_time` the `Main.__init__` timestamp recorded just before the primary
connection generated its one-time code (lines 21–24).  The run state
carries the assembled `output_dict`, whether `self.juniper_connection`
exists, the times at which the secondary session was opened, and — as an
observable of the route-lookup calls — the neighbor pair each circuit used
(`used`). -/
structure Circuit where
  port : String
  clr : String
  v4_neighbor : Value
  v6_neighbor : Value

structure CircuitsEnv where
  interfaces_all : List (String × List (String × Value))
  dns : String → String
  routesJunos : Value → List (String × Value)
  routesList : Value → List Value
  routeTo : List Value → List (String × Value)
  checkTime : Nat

structure RunState where
  output : List (String × Value)
  junosConn : Bool
  opens : List Nat
  used : List (String × Value × Value)

/-- A direct dict indexing `d[k]` (`KeyError` when absent). -/
def req (d : List (String × Value)) (k : String) : Except PyErr Value :=
  match aget d k with
  | some v => .ok v
  | Option.none => .error .keyError

/-- The `"Interface"` sub-record (`getters.py` lines 131–158): direct
indexings raise `KeyError`, `.get` lookups default to `None`, the DNS name
is resolved from the ipv4 address split at `"/"` (an `AttributeError` if
that field is not a string).  Note the source reads `nd_mac` (sic) for the
ND MAC. -/
def interfaceBlock (dns : String → String) (port : String)
    (cdata : List (String × Value)) : Except PyErr Value := do
  let description ← req cdata "description"
  let is_enabled ← req cdata "is_enabled"
  let is_up ← req cdata "is_up"
  let mtu ← req cdata "mtu"
  let tx_errors ← req cdata "tx_errors"
  let tx_discards ← req cdata "tx_discards"
  let rx_errors ← req cdata "rx_errors"
  let rx_discards ← req cdata "rx_discards"
  let mac ← req cdata "mac_address"
  let ipv4 ← req cdata "ipv4_address"
  let ipv4s ← match ipv4 with
    | Value.str s => Except.ok s
    | _ => Except.error PyErr.attributeError
  let arp_nh ← req cdata "arp_nh"
  let arp_nh_mac ← req cdata "arp_nh_mac"
  pure (Value.dict [
    ("Name", Value.str port), ("Description", description),
    ("Enabled", is_enabled), ("Up", is_up), ("MTU", mtu),
    ("Counters", Value.dict [("TX Errors", tx_errors),
      ("TX Discards", tx_discards), ("RX Errors", rx_errors),
      ("RX Discards", rx_discards)]),
    ("IPv4/IPv6", Value.dict [("MAC", mac), ("IPv4 Address", ipv4),
      ("IPv6 Address", optV (aget cdata "ipv6_address")),
      ("DNS", Value.str (dns (pySplitHead ipv4s "/"))),
      ("ARP/ND", Value.dict [("ARP Next-Hop", arp_nh),
        ("ARP NH MAC", arp_nh_mac),
        ("IPv6 ND Next-Hop", optV (aget cdata "nd_nh")),
        ("ND NH MAC", optV (aget cdata "nd_mac"))])])])

/-- The time at which the secondary (global-router) session opens: the
`elapsed_time` check plus `time.sleep(30 - elapsed_time)` when less than
30 seconds have passed (`getters.py` lines 208–211). -/
def paceTime (start_time now : Nat) : Nat :=
  if now - start_time < 30 then now + (30 - (now - start_time)) else now

/-- Route retrieval and record finalization for one circuit
(`getters.py` lines 184–219): Junos devices fetch neighbor routes
directly; other device types build a route list, open the secondary
session on the first circuit (`counter == 0`) after the pacing wait, and
call the global router's route-to getter (an `AttributeError` if
`self.juniper_connection` was never created). -/
def circuitFinish (device_type : String) (env : CircuitsEnv)
    (start_time : Nat) (st : RunState) (counter : Nat) (clr : String)
    (rec1 : List (String × Value)) (v4 v6 : Value) : Except PyErr RunState :=
  if device_type == "junos" then
    let routes_dict := ([v4, v6].filter truthy).foldl
      (fun d i => aupdate d (env.routesJunos i)) []
    .ok { output := aset st.output clr
            (Value.dict (aset rec1 "BGP" (Value.dict routes_dict)))
          junosConn := st.junosConn
          opens := st.opens
          used := st.used ++ [(clr, v4, v6)] }
  else
    let routes_list := ([v4, v6].filter truthy).foldl
      (fun l i => l ++ env.routesList i) []
    let st2 : RunState :=
      if counter == 0 then
        { st with
          junosConn := true
          opens := st.opens ++ [paceTime start_time env.checkTime] }
      else st
    if st2.junosConn then
      .ok { output := aset st2.output clr
              (Value.dict (aset rec1 "BGP"
                (Value.dict (env.routeTo routes_list))))
            junosConn := st2.junosConn
            opens := st2.opens
            used := st2.used ++ [(clr, v4, v6)] }
    else .error .attributeError

/-- One iteration of the per-circuit loop (`getters.py` lines 125–219):
look up the pre-collected interface record, build the `"Interface"` block,
then either record the IS-IS adjacency block (truthy `isis_state`) or
infer missing neighbor addresses from the collected `arp_nh`/`nd_nh`, and
finish with the route lookup. -/
def circuitBody (device_type : String) (env : CircuitsEnv)
    (start_time : Nat) (st : RunState) (c : Nat × Circuit) :
    Except PyErr RunState :=
  match aget env.interfaces_all c.2.port with
  | Option.none => .error .keyError
  | some circuit_data =>
    match interfaceBlock env.dns c.2.port circuit_data with
    | .error e => .error e
    | .ok iblock =>
      if truthyO (aget circuit_data "isis_state") then
        match req circuit_data "isis_neighbor" with
        | .error e => .error e
        | .ok nbr =>
          match req circuit_data "isis_nh" with
          | .error e => .error e
          | .ok nh =>
            match req circuit_data "isis_metric" with
            | .error e => .error e
            | .ok metric =>
              match req circuit_data "mpls_enabled" with
              | .error e => .error e
              | .ok mp =>
                circuitFinish device_type env start_time st c.1
                  ("CLR-" ++ c.2.clr)
                  (aset [("Interface", iblock)] "IS-IS"
                    (Value.dict [("Neighbor", nbr), ("NH", nh),
                      ("Metric", metric), ("MPLS", mp)]))
                  c.2.v4_neighbor c.2.v6_neighbor
      else
        circuitFinish device_type env start_time st c.1
          ("CLR-" ++ c.2.clr) [("Interface", iblock)]
          (if truthy c.2.v4_neighbor then c.2.v4_neighbor
            else optV (aget circuit_data "arp_nh"))
          (if truthy c.2.v6_neighbor then c.2.v6_neighbor
            else optV (aget circuit_data "nd_nh"))

/-- `circuits_pms` (`getters.py` lines 115–227): `enumerate` the circuits
and fold the loop body from the empty output state. -/
def circuits_pms (device_type : String) (env : CircuitsEnv)
    (start_time : Nat) (circuits : List Circuit) : Except PyErr RunState :=
  circuits.enum.foldlM (circuitBody device_type env start_time)
    ⟨[], false, [], []⟩

end Maint

namespace Maint

/-- The opened-secondary-session times of a run (`[]` when the run raised
an exception and produced no result). -/
def opensOf : Except PyErr RunState → List Nat
  | .ok st => st.opens
  | .error _ => []

/-- The per-circuit neighbor pairs a run passed to the route getters. -/
def usedOf : Except PyErr RunState → List (String × Value × Value)
  | .ok st => st.used
  | .error _ => []

theorem paceTime_spec (start_time now : Nat) (h : start_time ≤ now) :
    paceTime start_time now = max now (start_time + 30) ∧
    start_time + 30 ≤ paceTime start_time now := by
  unfold paceTime
  by_cases hc : now - start_time < 30
  · rw [if_pos hc]
    omega
  · rw [if_neg hc]
    omega

theorem circuitFinish_opens (device_type : String) (env : CircuitsEnv)
    (start_time : Nat) (st : RunState) (counter : Nat) (clr : String)
    (rec1 : List (String × Value)) (v4 v6 : Value) (st' : RunState)
    (h : circuitFinish device_type env start_time st counter clr rec1 v4 v6 =
      .ok st') :
    (counter ≠ 0 → st'.opens = st.opens) ∧
    (device_type = "junos" → st'.opens = st.opens) ∧
    (counter = 0 → device_type ≠ "junos" →
      st'.opens = st.opens ++ [paceTime start_time env.checkTime]) := by
  unfold circuitFinish at h
  cases hb : (device_type == "junos") with
  | true =>
    have hdt : device_type = "junos" := by simpa using hb
    simp only [hb, if_true] at h
    injection h with h'
    exact ⟨fun _ => by rw [← h'], fun _ => by rw [← h'],
      fun _ hne => absurd hdt hne⟩
  | false =>
    have hdt : device_type ≠ "junos" := by simpa using hb
    simp only [hb, Bool.false_eq_true, if_false] at h
    cases hc : (counter == 0) with
    | true =>
      have hc0 : counter = 0 := by simpa using hc
      simp only [hc, if_true] at h
      injection h with h'
      exact ⟨fun hne => absurd hc0 hne, fun hj => absurd hj hdt,
        fun _ _ => by rw [← h']⟩
    | false =>
      have hc0 : counter ≠ 0 := by simpa using hc
      simp only [hc, Bool.false_eq_true, if_false] at h
      cases hj : st.junosConn with
      | true =>
        simp only [hj, if_true] at h
        injection h with h'
        exact ⟨fun _ => by rw [← h'], fun hjj => absurd hjj hdt,
          fun h0 _ => absurd h0 hc0⟩
      | false =>
        simp only [hj, Bool.false_eq_true, if_false] at h
        cases h

theorem circuitBody_opens (device_type : String) (env : CircuitsEnv)
    (start_time : Nat) (st : RunState) (c : Nat × Circuit) (st' : RunState)
    (h : circuitBody device_type env start_time st c = .ok st') :
    (c.1 ≠ 0 → st'.opens = st.opens) ∧
    (device_type = "junos" → st'.opens = st.opens) ∧
    (c.1 = 0 → device_type ≠ "junos" →
      st'.opens = st.opens ++ [paceTime start_time env.checkTime]) := by
  unfold circuitBody at h
  cases hcd : aget env.interfaces_all c.2.port with
  | none => rw [hcd] at h; cases h
  | some cdata =>
    rw [hcd] at h
    try dsimp only at h
    cases hib : interfaceBlock env.dns c.2.port cdata with
    | error e => rw [hib] at h; cases h
    | ok ib =>
      rw [hib] at h
      try dsimp only at h
      by_cases hisis : truthyO (aget cdata "isis_state")
      · rw [if_pos hisis] at h
        cases h1 : req cdata "isis_neighbor" with
        | error e => rw [h1] at h; cases h
        | ok nbr =>
          rw [h1] at h
          try dsimp only at h
          cases h2 : req cdata "isis_nh" with
          | error e => rw [h2] at h; cases h
          | ok nh =>
            rw [h2] at h
            try dsimp only at h
            cases h3 : req cdata "isis_metric" with
            | error e => rw [h3] at h; cases h
            | ok metric =>
              rw [h3] at h
              try dsimp only at h
              cases h4 : req cdata "mpls_enabled" with
              | error e => rw [h4] at h; cases h
              | ok mp =>
                rw [h4] at h
                try dsimp only at h
                exact circuitFinish_opens _ _ _ _ _ _ _ _ _ _ h
      · rw [if_neg hisis] at h
        exact circuitFinish_opens _ _ _ _ _ _ _ _ _ _ h

theorem circuits_loop_opens_tail (device_type : String) (env : CircuitsEnv)
    (start_time : Nat) (l : List (Nat × Circuit)) (st st' : RunState)
    (hl : ∀ p ∈ l, p.1 ≠ 0)
    (h : l.foldlM (circuitBody device_type env start_time) st = .ok st') :
    st'.opens = st.opens := by
  induction l generalizing st with
  | nil =>
    simp only [List.foldlM_nil] at h
    injection h with h'
    rw [← h']
  | cons c t ih =>
    rw [List.foldlM_cons] at h
    cases hb : circuitBody device_type env start_time st c with
    | error e =>
      rw [hb, except_bind_error] at h
      cases h
    | ok st1 =>
      rw [hb, except_bind_ok] at h
      rw [ih _ (fun p hp => hl p (List.mem_cons_of_mem _ hp)) h]
      exact (circuitBody_opens _ _ _ _ _ _ hb).1 (hl c (List.mem_cons_self _ _))

theorem enumFrom_fst_ge {α : Type} (n : Nat) (l : List α) :
    ∀ p ∈ List.enumFrom n l, n ≤ p.1 := by
  induction l generalizing n with
  | nil => intro p hp; cases hp
  | cons a t ih =>
    intro p hp
    rw [List.enumFrom_cons] at hp
    rcases List.mem_cons.mp hp with rfl | hp'
    · exact Nat.le_refl n
    · exact Nat.le_trans (Nat.le_succ n) (ih (n + 1) p hp')

/-- **C3.** On a non-Junos device type, the secondary (global-router)
session is opened at most once per `circuits_pms` run, and its opening time
is exactly the pacing result: `max(checkTime, start_time + 30)` — i.e. at
least 30 seconds after the primary session's one-time code timestamp, with
the orchestrator sleeping for the remainder when less time has passed. -/
theorem secondary_session_pacing (device_type : String) (env : CircuitsEnv)
    (start_time : Nat) (circuits : List Circuit)
    (hdt : device_type ≠ "junos") (hle : start_time ≤ env.checkTime) :
    (opensOf (circuits_pms device_type env start_time circuits)).length ≤ 1 ∧
    ∀ t ∈ opensOf (circuits_pms device_type env start_time circuits),
      t = max env.checkTime (start_time + 30) ∧ start_time + 30 ≤ t := by
  have hkey :
      opensOf (circuits_pms device_type env start_time circuits) = [] ∨
      opensOf (circuits_pms device_type env start_time circuits) =
        [paceTime start_time env.checkTime] := by
    cases hrun : circuits_pms device_type env start_time circuits with
    | error e => exact Or.inl rfl
    | ok st' =>
      cases circuits with
      | nil =>
        have h0 : st'.opens = ([] : List Nat) := by
          have : Except.ok (⟨[], false, [], []⟩ : RunState) = .ok st' := hrun
          injection this with h'
          rw [← h']
        exact Or.inl (by show st'.opens = []; exact h0)
      | cons c cs =>
        have hfold : ((0, c) :: List.enumFrom 1 cs).foldlM
            (circuitBody device_type env start_time) ⟨[], false, [], []⟩ =
            .ok st' := hrun
        rw [List.foldlM_cons] at hfold
        cases hb : circuitBody device_type env start_time
            ⟨[], false, [], []⟩ (0, c) with
        | error e =>
          rw [hb, except_bind_error] at hfold
          cases hfold
        | ok st1 =>
          rw [hb, except_bind_ok] at hfold
          have h1 : st1.opens =
              [] ++ [paceTime start_time env.checkTime] :=
            (circuitBody_opens _ _ _ _ _ _ hb).2.2 rfl hdt
          have h2 : st'.opens = st1.opens :=
            circuits_loop_opens_tail _ _ _ _ _ _
              (fun p hp => Nat.pos_iff_ne_zero.mp
                (enumFrom_fst_ge 1 cs p hp)) hfold
          refine Or.inr ?_
          show st'.opens = _
          rw [h2, h1]
          rfl
  obtain ⟨hp1, hp2⟩ := paceTime_spec start_time env.checkTime hle
  rcases hkey with hk | hk
  · rw [hk]
    exact ⟨by simp, by simp⟩
  · rw [hk]
    refine ⟨by simp, ?_⟩
    intro t ht
    have := List.mem_singleton.mp ht
    subst this
    exact ⟨hp1, hp2⟩

end Maint

namespace Maint

theorem circuitFinish_result (device_type : String) (env : CircuitsEnv)
    (start_time : Nat) (st : RunState) (counter : Nat) (clr : String)
    (rec1 : List (String × Value)) (v4 v6 : Value) (st' : RunState)
    (h : circuitFinish device_type env start_time st counter clr rec1 v4 v6 =
      .ok st') :
    st'.used = st.used ++ [(clr, v4, v6)] ∧
    ∃ bgpv, aget st'.output clr = some (Value.dict (aset rec1 "BGP" bgpv)) := by
  unfold circuitFinish at h
  cases hb : (device_type == "junos") with
  | true =>
    simp only [hb, if_true] at h
    injection h with h'
    subst h'
    exact ⟨rfl, ⟨_, aget_aset_self _ _ _⟩⟩
  | false =>
    simp only [hb, Bool.false_eq_true, if_false] at h
    cases hc : (counter == 0) with
    | true =>
      simp only [hc, if_true] at h
      injection h with h'
      subst h'
      exact ⟨rfl, ⟨_, aget_aset_self _ _ _⟩⟩
    | false =>
      simp only [hc, Bool.false_eq_true, if_false] at h
      cases hj : st.junosConn with
      | true =>
        simp only [hj, if_true] at h
        injection h with h'
        subst h'
        exact ⟨rfl, ⟨_, aget_aset_self _ _ _⟩⟩
      | false =>
        simp only [hj, Bool.false_eq_true, if_false] at h
        cases h

/-- **C2.** In the per-circuit workflow: a circuit whose pre-collected
interface record reports a truthy `isis_state` gets a Circuit Record with
an `"IS-IS"` block (neighbor, next-hop, metric, MPLS flag) and its route
lookup uses only the caller-supplied neighbor addresses (no ARP/ND
inference); a circuit with `isis_state` absent or falsy and falsy
caller-supplied neighbors has its route lookup use the interface's
`arp_nh`/`nd_nh` values, and its record carries no `"IS-IS"` key. -/
theorem circuit_isis_vs_inference (device_type : String) (env : CircuitsEnv)
    (start_time : Nat) (st : RunState) (counter : Nat) (circuit : Circuit)
    (cdata : List (String × Value))
    (hcd : aget env.interfaces_all circuit.port = some cdata) :
    (truthyO (aget cdata "isis_state") = true →
      ∀ st', circuitBody device_type env start_time st (counter, circuit) =
          .ok st' →
        (∃ rec, aget st'.output ("CLR-" ++ circuit.clr) =
            some (Value.dict rec) ∧
          ∃ nbr nh metric mp, aget rec "IS-IS" = some (Value.dict
            [("Neighbor", nbr), ("NH", nh), ("Metric", metric),
             ("MPLS", mp)])) ∧
        st'.used = st.used ++ [("CLR-" ++ circuit.clr,
          circuit.v4_neighbor, circuit.v6_neighbor)]) ∧
    (truthyO (aget cdata "isis_state") = false →
      truthy circuit.v4_neighbor = false →
      truthy circuit.v6_neighbor = false →
      ∀ st', circuitBody device_type env start_time st (counter, circuit) =
          .ok st' →
        st'.used = st.used ++ [("CLR-" ++ circuit.clr,
          optV (aget cdata "arp_nh"), optV (aget cdata "nd_nh"))] ∧
        ∀ rec, aget st'.output ("CLR-" ++ circuit.clr) =
            some (Value.dict rec) →
          aget rec "IS-IS" = Option.none) := by
  constructor
  · intro hisis st' h
    unfold circuitBody at h
    rw [hcd] at h
    try dsimp only at h
    cases hib : interfaceBlock env.dns circuit.port cdata with
    | error e => rw [hib] at h; cases h
    | ok ib =>
      rw [hib] at h
      try dsimp only at h
      rw [if_pos hisis] at h
      cases h1 : req cdata "isis_neighbor" with
      | error e => rw [h1] at h; cases h
      | ok nbr =>
        rw [h1] at h
        try dsimp only at h
        cases h2 : req cdata "isis_nh" with
        | error e => rw [h2] at h; cases h
        | ok nh =>
          rw [h2] at h
          try dsimp only at h
          cases h3 : req cdata "isis_metric" with
          | error e => rw [h3] at h; cases h
          | ok metric =>
            rw [h3] at h
            try dsimp only at h
            cases h4 : req cdata "mpls_enabled" with
            | error e => rw [h4] at h; cases h
            | ok mp =>
              rw [h4] at h
              try dsimp only at h
              obtain ⟨hused, bgpv, hout⟩ :=
                circuitFinish_result _ _ _ _ _ _ _ _ _ _ h
              exact ⟨⟨_, hout, nbr, nh, metric, mp, rfl⟩, hused⟩
  · intro hisis hv4 hv6 st' h
    unfold circuitBody at h
    rw [hcd] at h
    try dsimp only at h
    cases hib : interfaceBlock env.dns circuit.port cdata with
    | error e => rw [hib] at h; cases h
    | ok ib =>
      rw [hib] at h
      try dsimp only at h
      rw [if_neg (by rw [hisis]; exact Bool.false_ne_true)] at h
      obtain ⟨hused, bgpv, hout⟩ := circuitFinish_result _ _ _ _ _ _ _ _ _ _ h
      simp only [hv4, hv6, Bool.false_eq_true, if_false] at hused
      refine ⟨hused, ?_⟩
      intro rec hrec
      rw [hout] at hrec
      injection hrec with h1
      injection h1 with h2
      rw [← h2]
      rfl

end Maint

namespace Maint

/-- A fully-populated interface record (no ISIS adjacency) for the C2/C3
witnesses. -/
def c3cdata : List (String × Value) :=
  [("description", Value.str "cust circuit"),
   ("is_enabled", Value.bool true),
   ("is_up", Value.bool true), ("mtu", Value.int 1500),
   ("tx_errors", Value.int 0), ("tx_discards", Value.int 0),
   ("rx_errors", Value.int 0), ("rx_discards", Value.int 0),
   ("mac_address", Value.str "2c:6b:f5:00:00:01"),
   ("ipv4_address", Value.str "10.0.0.1/30"),
   ("arp_nh", Value.str "10.0.0.2"),
   ("arp_nh_mac", Value.str "2c:6b:f5:00:00:02")]

/-- Environment for the C2/C3 witnesses: one interface, empty route
getters, clock reading 105 at the pacing check. -/
def c3env : CircuitsEnv :=
  { interfaces_all := [("et-1", c3cdata)]
    dns := fun _ => "host1"
    routesJunos := fun _ => []
    routesList := fun _ => []
    routeTo := fun _ => []
    checkTime := 105 }

/-- Two circuits with no caller-supplied neighbors. -/
def c3circuits : List Circuit :=
  [⟨"et-1", "1001", Value.none, Value.none⟩,
   ⟨"et-1", "1002", Value.none, Value.none⟩]

/-- Witness for C3: a non-Junos run with two circuits, started at time 100
with the pacing check at 105, opens the secondary session exactly once, at
time `130 = max 105 (100 + 30)`. -/
theorem secondary_session_pacing_witness :
    ("iosxr" : String) ≠ "junos" ∧ (100 : Nat) ≤ c3env.checkTime ∧
    ((opensOf (circuits_pms "iosxr" c3env 100 c3circuits)).length ≤ 1 ∧
     ∀ t ∈ opensOf (circuits_pms "iosxr" c3env 100 c3circuits),
       t = max c3env.checkTime (100 + 30) ∧ 100 + 30 ≤ t) ∧
    opensOf (circuits_pms "iosxr" c3env 100 c3circuits) = [130] :=
  ⟨by decide, by decide,
   secondary_session_pacing "iosxr" c3env 100 c3circuits (by decide)
     (by decide), rfl⟩

/-- The C2 witness circuit without caller-supplied neighbors. -/
def c2circB : Circuit := ⟨"et-1", "1001", Value.none, Value.none⟩

/-- The run state after processing `c2circB` on a non-Junos device. -/
def c2resB : RunState :=
  match circuitBody "iosxr" c3env 100 ⟨[], false, [], []⟩ (0, c2circB) with
  | .ok st => st
  | .error _ => ⟨[], false, [], []⟩

/-- The Circuit Record assembled for `c2circB`. -/
def c2recB : List (String × Value) :=
  match aget c2resB.output "CLR-1001" with
  | some (Value.dict r) => r
  | _ => []

/-- Interface record with a truthy ISIS adjacency for the C2 witness. -/
def c2cdataIsis : List (String × Value) :=
  c3cdata ++
  [("isis_state", Value.bool true),
   ("isis_neighbor", Value.str "router2"),
   ("isis_nh", Value.str "10.0.0.2"),
   ("isis_metric", Value.int 10),
   ("mpls_enabled", Value.bool true)]

/-- Environment whose single interface has the ISIS adjacency. -/
def c2envIsis : CircuitsEnv :=
  { interfaces_all := [("et-1", c2cdataIsis)]
    dns := fun _ => "host1"
    routesJunos := fun _ => []
    routesList := fun _ => []
    routeTo := fun _ => []
    checkTime := 200 }

/-- The C2 witness circuit with a caller-supplied IPv4 neighbor. -/
def c2circA : Circuit := ⟨"et-1", "2001", Value.str "192.0.2.9", Value.none⟩

/-- The run state after processing `c2circA` on a Junos device. -/
def c2resA : RunState :=
  match circuitBody "junos" c2envIsis 100 ⟨[], false, [], []⟩
      (0, c2circA) with
  | .ok st => st
  | .error _ => ⟨[], false, [], []⟩

/-- The Circuit Record assembled for `c2circA`. -/
def c2recA : List (String × Value) :=
  match aget c2resA.output "CLR-2001" with
  | some (Value.dict r) => r
  | _ => []

/-- Witness for C2 at concrete circuits: the ISIS circuit's record has the
`"IS-IS"` block and its route lookup used the caller-supplied neighbors
unchanged; the non-ISIS circuit with no caller-supplied neighbors used the
collected `arp_nh`/`nd_nh` values and got no `"IS-IS"` key. -/
theorem circuit_isis_vs_inference_witness :
    truthyO (aget c2cdataIsis "isis_state") = true ∧
    c2resA.used = [("CLR-2001", Value.str "192.0.2.9", Value.none)] ∧
    aget c2recA "IS-IS" = some (Value.dict
      [("Neighbor", Value.str "router2"), ("NH", Value.str "10.0.0.2"),
       ("Metric", Value.int 10), ("MPLS", Value.bool true)]) ∧
    truthyO (aget c3cdata "isis_state") = false ∧
    c2resB.used = [("CLR-1001", optV (aget c3cdata "arp_nh"),
      optV (aget c3cdata "nd_nh"))] ∧
    c2resB.used = [("CLR-1001", Value.str "10.0.0.2", Value.none)] ∧
    aget c2recB "IS-IS" = Option.none :=
  ⟨rfl,
   ((circuit_isis_vs_inference "junos" c2envIsis 100 ⟨[], false, [], []⟩ 0
       c2circA c2cdataIsis rfl).1 rfl c2resA rfl).2,
   rfl,
   rfl,
   ((circuit_isis_vs_inference "iosxr" c3env 100 ⟨[], false, [], []⟩ 0
       c2circB c3cdata rfl).2 rfl rfl rfl c2resB rfl).1,
   rfl,
   ((circuit_isis_vs_inference "iosxr" c3env 100 ⟨[], false, [], []⟩ 0
       c2circB c3cdata rfl).2 rfl rfl rfl c2resB rfl).2 c2recB rfl⟩

end Maint
